import Mathlib

/-!
Shallow embedding of the EUDR compliance engine of `supply-chain-tracker`
(`backend/src/services/geojson.service.ts`, `backend/src/routes/batch.ts`,
`backend/src/types/eudr.types.ts`), together with proofs about the claims of
the natural-language specification.

JavaScript runtime values that can flow through the service are modelled by
the inductive `Json` (objects keep their key insertion order, as JS objects
do); the possibly-`undefined` results of property accesses are modelled by
`Option Json` with `none` standing for `undefined`.  Numbers are modelled by
`JsNum`, a decimal literal `m / 10^e`; this captures exactly the values whose
JavaScript `toString` prints in plain decimal notation (the relevant range for
geographic coordinates), so that `Number.prototype.toString` is the decimal
rendering `JsNum.chars`.  Code that can raise a `TypeError` at runtime is
modelled in `Except RTErr`.
-/

/-- A JavaScript number in decimal-literal form: the value `m / 10 ^ e`.
`⟨71, 1⟩` is `7.1`, `⟨-5, 0⟩` is `-5`.  A value is `normalized` when it is
the shortest such representation, which is what `Number.prototype.toString`
produces (no trailing fractional zeros, no decimal point for integers). -/
structure JsNum where
  m : Int
  e : Nat
deriving DecidableEq, Repr

/-- The rational value of a `JsNum`. -/
def JsNum.toRat (n : JsNum) : ℚ := (n.m : ℚ) / (10 : ℚ) ^ n.e

/-- Shortest-representation invariant: a fractional part never ends in `0`. -/
def JsNum.normalized (n : JsNum) : Prop := n.e = 0 ∨ ¬ (10 : Int) ∣ n.m

/-- A JavaScript value reachable from parsed JSON.  Object fields keep their
insertion order, exactly as in a JavaScript object. -/
inductive Json where
  | null : Json
  | bool (b : Bool) : Json
  | num (n : JsNum) : Json
  | str (s : String) : Json
  | arr (elems : List Json) : Json
  | obj (fields : List (String × Json)) : Json
deriving Repr

namespace Json

/-- Structural equality test, mutually with lists of values and fields. -/
def beq : Json → Json → Bool
  | .null, .null => true
  | .bool a, .bool b => a == b
  | .num a, .num b => a == b
  | .str a, .str b => a == b
  | .arr a, .arr b => beqList a b
  | .obj a, .obj b => beqFields a b
  | _, _ => false
where
  beqList : List Json → List Json → Bool
    | [], [] => true
    | x :: xs, y :: ys => beq x y && beqList xs ys
    | _, _ => false
  beqFields : List (String × Json) → List (String × Json) → Bool
    | [], [] => true
    | (k, x) :: xs, (l, y) :: ys => k == l && beq x y && beqFields xs ys
    | _, _ => false

instance : BEq Json := ⟨beq⟩

mutual
theorem beq_iff : ∀ a b : Json, beq a b = true ↔ a = b
  | .null, b => by cases b <;> simp [beq]
  | .bool x, b => by cases b <;> simp [beq]
  | .num x, b => by cases b <;> simp [beq]
  | .str x, b => by cases b <;> simp [beq]
  | .arr xs, b => by
      cases b <;> simp [beq]
      exact beqList_iff xs _
  | .obj xs, b => by
      cases b <;> simp [beq]
      exact beqFields_iff xs _

theorem beqList_iff : ∀ a b : List Json, beq.beqList a b = true ↔ a = b
  | [], b => by cases b <;> simp [beq.beqList]
  | x :: xs, b => by
      cases b with
      | nil => simp [beq.beqList]
      | cons y ys =>
          simp only [beq.beqList, Bool.and_eq_true, List.cons.injEq]
          exact and_congr (beq_iff x y) (beqList_iff xs ys)

theorem beqFields_iff :
    ∀ a b : List (String × Json), beq.beqFields a b = true ↔ a = b
  | [], b => by cases b <;> simp [beq.beqFields]
  | (k, x) :: xs, b => by
      cases b with
      | nil => simp [beq.beqFields]
      | cons p ys =>
          obtain ⟨l, y⟩ := p
          simp only [beq.beqFields, Bool.and_eq_true, List.cons.injEq,
            Prod.mk.injEq, beq_iff, beqFields_iff, beq_iff_eq]
end

instance : DecidableEq Json := fun a b =>
  decidable_of_iff (beq a b = true) (beq_iff a b)

instance : LawfulBEq Json where
  eq_of_beq h := (beq_iff _ _).mp h
  rfl := (beq_iff _ _).mpr rfl

end Json

-- =============================================================================
-- JavaScript number rendering (`Number.prototype.toString` on the decimal range)
-- =============================================================================

/-- Decimal digits of a natural number, most significant first, via fuel
(`fuel ≥ 1` suffices once `fuel` bounds the digit count; callers pass `n + 1`). -/
def natToCharsAux : Nat → Nat → List Char → List Char
  | 0, _, acc => acc
  | fuel + 1, n, acc =>
      let acc2 := Char.ofNat (48 + n % 10) :: acc
      if n < 10 then acc2 else natToCharsAux fuel (n / 10) acc2

/-- Decimal digits of a natural number, e.g. `natChars 705 = ['7','0','5']`. -/
def natChars (n : Nat) : List Char := natToCharsAux (n + 1) n []

/-- The fractional digit block of length `e` for the numerator remainder `fp`,
left-padded with zeros (`fracPad 3 5 = ['0','0','5']`). -/
def fracPad (e fp : Nat) : List Char :=
  List.replicate (e - (natChars fp).length) '0' ++ natChars fp

/-- `Number.prototype.toString` for a `JsNum`: sign, integer part, and — when
`e > 0` — a decimal point followed by exactly `e` fractional digits.  This is
the JavaScript rendering for numbers printed in plain decimal notation. -/
def numChars (n : JsNum) : List Char :=
  let a := n.m.natAbs
  let sign : List Char := if n.m < 0 then ['-'] else []
  if n.e = 0 then sign ++ natChars a
  else sign ++ natChars (a / 10 ^ n.e) ++ '.' :: fracPad n.e (a % 10 ^ n.e)

-- =============================================================================
-- JavaScript runtime primitives used by the service
-- =============================================================================

/-- A runtime `TypeError` (iterating a non-iterable, reading a property of
`null`/`undefined`, calling a missing method) or an exception thrown by the
external `turf.area` library. -/
inductive RTErr where
  | typeError : RTErr
  | areaCalc : RTErr
deriving DecidableEq, Repr

/-- First-match lookup of a key in a JS object's field list. -/
def jsLookup (fields : List (String × Json)) (k : String) : Option Json :=
  match fields with
  | [] => none
  | (k2, v) :: rest => if k2 = k then some v else jsLookup rest k

/-- Property access `v.k`: throws on `null`/`undefined`, yields the field of an
object, and `undefined` on every other primitive. -/
def propAccess : Option Json → String → Except RTErr (Option Json)
  | none, _ => .error .typeError
  | some .null, _ => .error .typeError
  | some (.obj fields), k => .ok (jsLookup fields k)
  | some _, _ => .ok none

/-- Optional chaining `v?.k`: `undefined` when `v` is `null`/`undefined`,
otherwise plain property access. -/
def optChain (v : Option Json) (k : String) : Except RTErr (Option Json) :=
  match v with
  | none => .ok none
  | some .null => .ok none
  | some j => propAccess (some j) k

/-- Pure form of `v?.k` (optional chaining never throws). -/
def optChainP (v : Option Json) (k : String) : Option Json :=
  match v with
  | some (.obj fields) => jsLookup fields k
  | _ => none

/-- JavaScript truthiness of a possibly-`undefined` value. -/
def jsTruthy : Option Json → Bool
  | none => false
  | some .null => false
  | some (.bool b) => b
  | some (.num n) => n.m != 0
  | some (.str s) => s ≠ ""
  | some (.arr _) => true
  | some (.obj _) => true

/-- `typeof v === 'object'` (true for objects, arrays and `null`). -/
def jsTypeofObject : Json → Bool
  | .null => true
  | .arr _ => true
  | .obj _ => true
  | _ => false

/-- Property read on a value known to be non-null (object field, otherwise
`undefined`); used where the source reads fields of an already-checked value. -/
def jsGet (j : Json) (k : String) : Option Json :=
  match j with
  | .obj fields => jsLookup fields k
  | _ => none

/-- `Array.isArray`. -/
def isJsArray : Option Json → Bool
  | some (.arr _) => true
  | _ => false

/-- `v.length` as JavaScript yields it for arrays and strings
(`undefined`, i.e. `none`, otherwise). -/
def jsLength : Option Json → Option Nat
  | some (.arr xs) => some xs.length
  | some (.str s) => some s.length
  | _ => none

/-- `(v?.length || 0)` as used for `legalityDocuments`. -/
def jsLenOrZero (v : Option Json) : Nat := (jsLength v).getD 0

/-- Structural size of a JS value, used as recursion fuel for the string
renderings below (each child is strictly smaller, so the fuel never runs out
when a function is entered with the size of its argument). -/
def Json.size : Json → Nat
  | .null => 1
  | .bool _ => 1
  | .num _ => 1
  | .str _ => 1
  | .arr xs => 1 + sizeList xs
  | .obj kvs => 1 + sizeFields kvs
where
  sizeList : List Json → Nat
    | [] => 0
    | x :: xs => size x + sizeList xs + 1
  sizeFields : List (String × Json) → Nat
    | [] => 0
    | (_, v) :: kvs => size v + sizeFields kvs + 1

/-- `String(v)` (with the `Array.prototype.toString` join convention for
arrays, where `null` elements join as the empty string), bounded by fuel; the
entry point passes the structural size, which the recursion never exhausts. -/
def jsDisplayCharsF : Nat → Json → List Char
  | _, .null => "null".data
  | _, .bool b => if b then "true".data else "false".data
  | _, .num n => numChars n
  | _, .str s => s.data
  | 0, .arr _ => []
  | fuel + 1, .arr xs =>
      List.intercalate [','] (xs.map fun x =>
        match x with
        | .null => []
        | y => jsDisplayCharsF fuel y)
  | _, .obj _ => "[object Object]".data

/-- `String(v)` for a JavaScript value. -/
def jsDisplayChars (j : Json) : List Char := jsDisplayCharsF j.size j

/-- Iteration `for (const x of v)`: arrays yield their elements, strings yield
their characters, everything else raises a `TypeError`. -/
def jsIterate : Option Json → Except RTErr (List (Option Json))
  | some (.arr xs) => .ok (xs.map some)
  | some (.str s) => .ok (s.data.map fun c => some (.str ⟨[c]⟩))
  | _ => .error .typeError

/-- `Array.prototype.flat()` (one level). -/
def jsFlat (xs : List Json) : List Json :=
  xs.flatMap fun x =>
    match x with
    | .arr ys => ys
    | y => [y]

-- =============================================================================
-- EUDR constants (backend/src/types/eudr.types.ts)
-- =============================================================================

/-- `EUDR_CONSTANTS.MIN_COORDINATE_PRECISION`: at least 6 decimal places. -/
def MIN_COORDINATE_PRECISION : Nat := 6

/-- `EUDR_CONSTANTS.LARGE_PLOT_THRESHOLD_HA`: plots of 4 ha or more require a
polygon. -/
def LARGE_PLOT_THRESHOLD_HA : ℚ := 4

/-- `EUDR_CONSTANTS.MAX_GEOJSON_SIZE_BYTES`: the 5 MB size cap. -/
def MAX_GEOJSON_SIZE_BYTES : Nat := 5 * 1024 * 1024

-- =============================================================================
-- GeoJSONService.getDecimalPrecision / extractCoordinates /
-- getMinCoordinatePrecision (geojson.service.ts lines 195-235)
-- =============================================================================

/-- `str.length - str.indexOf('.') - 1`, or `0` when there is no dot: the body
of `getDecimalPrecision` applied to an already-rendered string. -/
def precisionOfChars (cs : List Char) : Nat :=
  if '.' ∈ cs then cs.length - cs.indexOf '.' - 1 else 0

/-- `getDecimalPrecision(value)`: renders `value.toString()` and counts the
characters after the first decimal point.  Throws a `TypeError` when `value`
is `null` or `undefined`. -/
def getDecimalPrecision : Option Json → Except RTErr Nat
  | none => .error .typeError
  | some .null => .error .typeError
  | some j => .ok (precisionOfChars (jsDisplayChars j))

/-- `extractCoordinates(geometry)`: a Point contributes its raw `coordinates`
value as the single coordinate, a Polygon contributes `coordinates.flat()`
(which throws when `coordinates` is not an array); any other type yields no
coordinates. -/
def extractCoordinates (geometry : Option Json) : Except RTErr (List (Option Json)) := do
  let t ← propAccess geometry "type"
  if t = some (.str "Point") then
    let c ← propAccess geometry "coordinates"
    return [c]
  else if t = some (.str "Polygon") then
    let c ← propAccess geometry "coordinates"
    match c with
    | some (.arr rings) => return (jsFlat rings).map some
    | _ => throw .typeError
  else
    return []

/-- The inner loop of `getMinCoordinatePrecision` over the components of one
coordinate (the accumulator `none` plays the role of `Infinity`). -/
def minPrecVals : List (Option Json) → Option Nat → Except RTErr (Option Nat)
  | [], acc => .ok acc
  | v :: rest, acc => do
      let p ← getDecimalPrecision v
      let acc2 := match acc with
        | none => some p
        | some m => if p < m then some p else some m
      minPrecVals rest acc2

/-- The outer loop of `getMinCoordinatePrecision` over all coordinates; each
coordinate is iterated with `for (const value of coord)`, which throws on a
non-iterable coordinate. -/
def minPrecLoop : List (Option Json) → Option Nat → Except RTErr (Option Nat)
  | [], acc => .ok acc
  | coord :: rest, acc => do
      let vals ← jsIterate coord
      let acc2 ← minPrecVals vals acc
      minPrecLoop rest acc2

/-- `getMinCoordinatePrecision(geometry)`: the minimum decimal precision over
every component of every coordinate, `0` when the geometry has no
coordinates (`minPrecision === Infinity`). -/
def getMinCoordinatePrecision (geometry : Option Json) : Except RTErr Nat := do
  let coords ← extractCoordinates geometry
  let m ← minPrecLoop coords none
  return m.getD 0

-- =============================================================================
-- GeoJSONService.normalizeToFeatureCollection (geojson.service.ts lines 157-190)
-- =============================================================================

/-- The two exceptions `normalizeToFeatureCollection` can throw, by message:
`'Invalid GeoJSON input'` and `'Unable to parse as valid GeoJSON (expected
FeatureCollection, Feature, Point, or Polygon)'`. -/
inductive NormErr where
  | invalidInput : NormErr
  | unableToParse : NormErr
deriving DecidableEq, Repr

/-- `normalizeToFeatureCollection(input)`: passes a
`{type: 'FeatureCollection', features: [...]}` object through unchanged, wraps
a `{type: 'Feature', geometry: ...}` object into a one-element collection,
wraps a bare `Point`/`Polygon` geometry into a feature with empty properties,
and throws on everything else. -/
def normalizeToFeatureCollection (input : Option Json) : Except NormErr Json :=
  match input with
  | none => .error .invalidInput
  | some j =>
      if ¬ (jsTruthy (some j) ∧ jsTypeofObject j = true) then .error .invalidInput
      else if jsGet j "type" = some (.str "FeatureCollection") ∧ isJsArray (jsGet j "features") = true then
        .ok j
      else if jsGet j "type" = some (.str "Feature") ∧ jsTruthy (jsGet j "geometry") = true then
        .ok (.obj [("type", .str "FeatureCollection"), ("features", .arr [j])])
      else if jsGet j "type" = some (.str "Point") ∨ jsGet j "type" = some (.str "Polygon") then
        .ok (.obj [("type", .str "FeatureCollection"),
          ("features", .arr [.obj [("type", .str "Feature"), ("geometry", j),
            ("properties", .obj [])]])])
      else .error .unableToParse

-- =============================================================================
-- GeoJSONService.validateGeoJSON (geojson.service.ts lines 20-152)
-- =============================================================================

/-- The error messages `validateGeoJSON` can push, one constructor per message
template, carrying the interpolated data (feature index, found precision,
declared area, duplicated plot id). -/
inductive VErr where
  | inputNotObject : VErr
  | normalizeFailed (e : NormErr) : VErr
  | emptyCollection : VErr
  | notAFeature (i : Nat) : VErr
  | missingGeometry (i : Nat) : VErr
  | badGeometryType (i : Nat) (t : Option Json) : VErr
  | lowPrecision (i : Nat) (found : Nat) : VErr
  | largePlot (i : Nat) (area : JsNum) : VErr
  | duplicatePlotId (i : Nat) (id : Json) : VErr
deriving DecidableEq, Repr

/-- The warning messages `validateGeoJSON` can push. -/
inductive VWarn where
  | areaFailed (i : Nat) : VWarn
  | pointNoArea (i : Nat) : VWarn
  | missingPlotId (i : Nat) : VWarn
deriving DecidableEq, Repr

/-- The geometry type recorded per feature. -/
inductive GeomType where
  | point : GeomType
  | polygon : GeomType
deriving DecidableEq, Repr

/-- One entry of the report's `features` array. -/
structure FeatRes where
  index : Nat
  type : GeomType
  area_ha : Option ℚ
  plot_id : Option Json
  coordinate_precision : Nat
deriving DecidableEq, Repr

/-- The `GeoValidationResult` report returned by `validateGeoJSON`. -/
structure GeoValidationResult where
  valid : Bool
  errors : List VErr
  warnings : List VWarn
  features : List FeatRes
  total_area_ha : ℚ
  requires_polygon_count : Nat
deriving DecidableEq, Repr

/-- What one iteration of the `validateGeoJSON` feature loop contributes:
errors, warnings, per-feature results, an area increment, a
`requiresPolygonCount` increment, and the updated set of seen plot ids. -/
structure StepOut where
  errs : List VErr
  warns : List VWarn
  results : List FeatRes
  dTotal : ℚ
  dCount : Nat
  seenOut : List Json
deriving DecidableEq, Repr

/-- `Math.round(x)` (round half up). -/
def jsRound (q : ℚ) : Int := ⌊q + 1 / 2⌋

/-- One iteration of the `validateGeoJSON` loop for `feature` at index `i`,
given the set `seen` of plot ids encountered so far.  The external
`turf.area` is abstracted by `areaFn` (`none` models a throw, caught by the
surrounding `try`).  Mirrors geojson.service.ts lines 69-142. -/
def stepFeature (areaFn : Json → Option ℚ) (i : Nat) (seen : List Json)
    (feature : Json) : Except RTErr StepOut := do
  let ftype ← propAccess (some feature) "type"
  if ftype ≠ some (.str "Feature") then
    return ⟨[.notAFeature i], [], [], 0, 0, seen⟩
  else
  let geometry ← propAccess (some feature) "geometry"
  if ¬ jsTruthy geometry then
    return ⟨[.missingGeometry i], [], [], 0, 0, seen⟩
  else
  let geomType ← propAccess geometry "type"
  if geomType ≠ some (.str "Point") ∧ geomType ≠ some (.str "Polygon") then
    return ⟨[.badGeometryType i geomType], [], [], 0, 0, seen⟩
  else
  let gt : GeomType := if geomType = some (.str "Point") then .point else .polygon
  let coordPrecision ← getMinCoordinatePrecision geometry
  let precErrs : List VErr :=
    if coordPrecision < MIN_COORDINATE_PRECISION then [.lowPrecision i coordPrecision] else []
  let (areaHa, areaWarns, dTotal) :=
    if gt = .polygon then
      match areaFn feature with
      | some aM2 => (some (aM2 / 10000), ([] : List VWarn), aM2 / 10000)
      | none => (none, [.areaFailed i], 0)
    else (none, [], 0)
  let props ← propAccess (some feature) "properties"
  let (largeErrs, pointWarns, dCount) ←
    if gt = .point then do
      let areaProp ← optChain props "area_ha"
      if ¬ jsTruthy areaProp then
        pure (([] : List VErr), [VWarn.pointNoArea i], 0)
      else
        match areaProp with
        | some (.num a) =>
            if LARGE_PLOT_THRESHOLD_HA ≤ a.toRat then
              pure ([VErr.largePlot i a], ([] : List VWarn), 1)
            else pure ([], [], 0)
        | _ => pure ([], [], 0)
    else pure ([], [], 0)
  let plotId ← optChain props "plot_id"
  let (dupErrs, plotWarns, seenOut) :=
    if jsTruthy plotId then
      match plotId with
      | some pid =>
          if seen.contains pid then ([VErr.duplicatePlotId i pid], ([] : List VWarn), seen)
          else ([], [], pid :: seen)
      | none => ([], [], seen)
    else ([], [VWarn.missingPlotId i], seen)
  return ⟨precErrs ++ largeErrs ++ dupErrs,
          areaWarns ++ pointWarns ++ plotWarns,
          [⟨i, gt, areaHa, plotId, coordPrecision⟩],
          dTotal, dCount, seenOut⟩

/-- Accumulated output of the feature loop. -/
structure LoopOut where
  errors : List VErr
  warnings : List VWarn
  results : List FeatRes
  total : ℚ
  polyReq : Nat
deriving DecidableEq, Repr

/-- The `validateGeoJSON` feature loop from index `i` with seen plot ids
`seen`. -/
def validateFeatures (areaFn : Json → Option ℚ) : Nat → List Json → List Json →
    Except RTErr LoopOut
  | _, _, [] => .ok ⟨[], [], [], 0, 0⟩
  | i, seen, f :: rest => do
      let s ← stepFeature areaFn i seen f
      let l ← validateFeatures areaFn (i + 1) s.seenOut rest
      return ⟨s.errs ++ l.errors, s.warns ++ l.warnings, s.results ++ l.results,
              s.dTotal + l.total, s.dCount + l.polyReq⟩

/-- `validateGeoJSON(input)`: structure check, normalization, empty-collection
check, then the per-feature loop; the `valid` flag is
`errors.length === 0` and the total area is rounded to 3 decimals.  Throws
(`Except.error`) exactly when the unguarded coordinate inspection throws. -/
def validateGeoJSON (areaFn : Json → Option ℚ) (input : Option Json) :
    Except RTErr GeoValidationResult :=
  if ¬ (jsTruthy input ∧ (match input with | some j => jsTypeofObject j | none => false) = true) then
    .ok ⟨false, [.inputNotObject], [], [], 0, 0⟩
  else
    match normalizeToFeatureCollection input with
    | .error e => .ok ⟨false, [.normalizeFailed e], [], [], 0, 0⟩
    | .ok fc =>
        let features := jsGet fc "features"
        if ¬ jsTruthy features ∨ jsLength features = some 0 then
          .ok ⟨false, [.emptyCollection], [], [], 0, 0⟩
        else
          let fs := match features with | some (.arr xs) => xs | _ => []
          match validateFeatures areaFn 0 [] fs with
          | .error e => .error e
          | .ok out =>
              .ok ⟨out.errors.isEmpty, out.errors, out.warnings, out.results,
                   (jsRound (out.total * 1000) : ℚ) / 1000, out.polyReq⟩

-- =============================================================================
-- JSON.stringify and the content hash (geojson.service.ts lines 284-287)
-- =============================================================================

/-- JSON string escaping as `JSON.stringify` performs it for one character. -/
def jsonEscapeChar (c : Char) : List Char :=
  if c = '"' then ['\\', '"']
  else if c = '\\' then ['\\', '\\']
  else if c = Char.ofNat 8 then ['\\', 'b']
  else if c = Char.ofNat 9 then ['\\', 't']
  else if c = Char.ofNat 10 then ['\\', 'n']
  else if c = Char.ofNat 12 then ['\\', 'f']
  else if c = Char.ofNat 13 then ['\\', 'r']
  else if c.toNat < 32 then
    ['\\', 'u', '0', '0',
     (if c.toNat / 16 < 10 then Char.ofNat (48 + c.toNat / 16) else Char.ofNat (87 + c.toNat / 16)),
     (if c.toNat % 16 < 10 then Char.ofNat (48 + c.toNat % 16) else Char.ofNat (87 + c.toNat % 16))]
  else [c]

/-- A double-quoted, escaped JSON string literal. -/
def jsonQuote (s : String) : List Char :=
  '"' :: s.data.flatMap jsonEscapeChar ++ ['"']

/-- `JSON.stringify(v)` (no spacing argument, so no whitespace; object keys
are emitted in insertion order, exactly as V8 serializes them), bounded by
structural-size fuel that the recursion never exhausts. -/
def jsonStringifyF : Nat → Json → List Char
  | _, .null => "null".data
  | _, .bool b => if b then "true".data else "false".data
  | _, .num n => numChars n
  | _, .str s => jsonQuote s
  | 0, .arr _ => []
  | fuel + 1, .arr xs =>
      '[' :: List.intercalate [','] (xs.map (jsonStringifyF fuel)) ++ [']']
  | 0, .obj _ => []
  | fuel + 1, .obj kvs =>
      Char.ofNat 123 ::
        List.intercalate [','] (kvs.map fun kv =>
          jsonQuote kv.1 ++ ':' :: jsonStringifyF fuel kv.2) ++ [Char.ofNat 125]

/-- `JSON.stringify(v)`. -/
def jsonStringify (j : Json) : List Char := jsonStringifyF j.size j

/-- UTF-8 encoding of one character (`ethers.toUtf8Bytes`). -/
def utf8EncChar (c : Char) : List Nat :=
  let n := c.toNat
  if n < 0x80 then [n]
  else if n < 0x800 then [0xC0 ||| (n >>> 6), 0x80 ||| (n &&& 0x3F)]
  else if n < 0x10000 then
    [0xE0 ||| (n >>> 12), 0x80 ||| ((n >>> 6) &&& 0x3F), 0x80 ||| (n &&& 0x3F)]
  else
    [0xF0 ||| (n >>> 18), 0x80 ||| ((n >>> 12) &&& 0x3F), 0x80 ||| ((n >>> 6) &&& 0x3F),
      0x80 ||| (n &&& 0x3F)]

/-- `ethers.toUtf8Bytes` on a character list. -/
def utf8Bytes (cs : List Char) : List Nat := cs.flatMap utf8EncChar

-- Keccak-256 (the `ethers.keccak256` library function, modelled bit-exactly:
-- rate 1088, multi-rate padding 0x01..0x80, 24 rounds).

/-- 64-bit mask. -/
def mask64 : Nat := 2 ^ 64 - 1

/-- 64-bit left rotation. -/
def rotl64 (x n : Nat) : Nat := ((x <<< n) &&& mask64) ||| (x >>> (64 - n))

/-- State lane read (25 lanes, flat index `x + 5*y`). -/
def lget (s : List Nat) (i : Nat) : Nat := s.getD i 0

/-- Keccak θ step. -/
def keccakTheta (s : List Nat) : List Nat :=
  let c := (List.range 5).map fun x =>
    lget s x ^^^ lget s (x + 5) ^^^ lget s (x + 10) ^^^ lget s (x + 15) ^^^ lget s (x + 20)
  let d := (List.range 5).map fun x =>
    lget c ((x + 4) % 5) ^^^ rotl64 (lget c ((x + 1) % 5)) 1
  (List.range 25).map fun i => lget s i ^^^ lget d (i % 5)

/-- Keccak ρ rotation offsets, one row (y fixed) per inner list, flattened to
flat index `x + 5*y`. -/
def rotRows : List (List Nat) :=
  [[0, 1, 62, 28, 27],
   [36, 44, 6, 55, 20],
   [3, 10, 43, 25, 39],
   [41, 45, 15, 21, 8],
   [18, 2, 61, 56, 14]]

/-- Keccak ρ rotation offsets, flat index `x + 5*y`. -/
def rotOffsets : List Nat := rotRows.flatten

/-- Keccak ρ and π steps combined. -/
def keccakRhoPi (s : List Nat) : List Nat :=
  (List.range 25).map fun t =>
    let tx := t % 5
    let ty := t / 5
    let x := (3 * (ty + 2 * tx)) % 5
    let src := x + 5 * tx
    rotl64 (lget s src) (lget rotOffsets src)

/-- Keccak χ step. -/
def keccakChi (s : List Nat) : List Nat :=
  (List.range 25).map fun t =>
    let x := t % 5
    let base := 5 * (t / 5)
    lget s t ^^^ ((mask64 ^^^ lget s ((x + 1) % 5 + base)) &&& lget s ((x + 2) % 5 + base))

/-- Keccak round constants (decimal, round 0 first). -/
def roundConstants : List Nat :=
  [1, 32898, 9223372036854808714,
   9223372039002292224, 32907, 2147483649,
   9223372039002292353, 9223372036854808585, 138,
   136, 2147516425, 2147483658,
   2147516555, 9223372036854775947, 9223372036854808713,
   9223372036854808579, 9223372036854808578, 9223372036854775936,
   32778, 9223372039002259466, 9223372039002292353,
   9223372036854808704, 2147483649, 9223372039002292232]

/-- Keccak ι step. -/
def keccakIota (rc : Nat) (s : List Nat) : List Nat :=
  match s with
  | [] => []
  | a :: rest => (a ^^^ rc) :: rest

/-- The keccak-f[1600] permutation. -/
def keccakF (s : List Nat) : List Nat :=
  roundConstants.foldl (fun st rc => keccakIota rc (keccakChi (keccakRhoPi (keccakTheta st)))) s

/-- Little-endian 8-byte groups to 64-bit lanes. -/
def bytesToLanes : List Nat → List Nat
  | b0 :: b1 :: b2 :: b3 :: b4 :: b5 :: b6 :: b7 :: rest =>
      (b0 + (b1 <<< 8) + (b2 <<< 16) + (b3 <<< 24) + (b4 <<< 32) + (b5 <<< 40) +
        (b6 <<< 48) + (b7 <<< 56)) :: bytesToLanes rest
  | _ => []

/-- XOR one rate-block of lanes into the state. -/
def absorbBlock (st : List Nat) (lanes : List Nat) : List Nat :=
  (List.range 25).map fun i => lget st i ^^^ lget lanes i

/-- Original-Keccak multi-rate padding (`0x01 … 0x80`) to a multiple of 136
bytes. -/
def keccakPad (msg : List Nat) : List Nat :=
  let r := 136
  let q := r - msg.length % r
  if q = 1 then msg ++ [0x81]
  else msg ++ [0x01] ++ List.replicate (q - 2) 0 ++ [0x80]

/-- Absorb `n` rate-blocks of the padded message. -/
def keccakAbsorb : Nat → List Nat → List Nat → List Nat
  | 0, st, _ => st
  | n + 1, st, bytes =>
      keccakAbsorb n (keccakF (absorbBlock st (bytesToLanes (bytes.take 136)))) (bytes.drop 136)

/-- One little-endian byte sequence of a lane. -/
def natToLeBytes (x : Nat) (n : Nat) : List Nat :=
  (List.range n).map fun i => (x >>> (8 * i)) &&& 0xff

/-- Lowercase hex digit. -/
def hexDigit (n : Nat) : Char :=
  if n < 10 then Char.ofNat (48 + n) else Char.ofNat (87 + n)

/-- Two lowercase hex digits of a byte. -/
def byteToHex (b : Nat) : List Char := [hexDigit (b / 16), hexDigit (b % 16)]

/-- `ethers.keccak256`: the 0x-prefixed lowercase hex Keccak-256 digest of a
byte sequence. -/
def keccak256Hex (msg : List Nat) : String :=
  let padded := keccakPad msg
  let final := keccakAbsorb (padded.length / 136) (List.replicate 25 0) padded
  let outBytes := (final.take 4).flatMap fun lane => natToLeBytes lane 8
  ⟨'0' :: 'x' :: outBytes.flatMap byteToHex⟩

/-- `computeGeolocationHash(featureCollection)`:
`keccak256(toUtf8Bytes(JSON.stringify(featureCollection)))`. -/
def computeGeolocationHash (featureCollection : Json) : String :=
  keccak256Hex (utf8Bytes (jsonStringify featureCollection))

/-- `validateFileSize(sizeBytes)`: true iff within the 5 MB cap. -/
def validateFileSize (sizeBytes : Nat) : Bool :=
  sizeBytes ≤ MAX_GEOJSON_SIZE_BYTES

-- =============================================================================
-- GeoJSONService.enrichWithArea (geojson.service.ts lines 240-261)
-- =============================================================================

/-- The field list contributed by an object spread `{...v}` (empty for
`null`/`undefined`/non-objects; index spreading of strings is not reachable
here and not modelled). -/
def spreadFields : Option Json → List (String × Json)
  | some (.obj fields) => fields
  | _ => []

/-- Object-literal update `{...base, k: v}`: the later entry overrides an
existing key in place, otherwise it is appended. -/
def setField (fields : List (String × Json)) (k : String) (v : Json) :
    List (String × Json) :=
  if fields.any (fun kv => kv.1 = k) then
    fields.map fun kv => if kv.1 = k then (kv.1, v) else kv
  else fields ++ [(k, v)]

/-- The shortest `JsNum` with value `k / 1000` (the shape `Math.round(x*1000)/1000`
produces as a JavaScript number). -/
def jsNumOfMilli (k : Int) : JsNum :=
  if k % 10 ≠ 0 then ⟨k, 3⟩
  else if k % 100 ≠ 0 then ⟨k / 10, 2⟩
  else if k % 1000 ≠ 0 then ⟨k / 100, 1⟩
  else ⟨k / 1000, 0⟩

/-- The body of the `enrichWithArea` map for one feature: a Polygon feature
gets `properties.area_ha` set to its rounded computed area (an exception from
`turf.area` is not caught here), any other feature passes through. -/
def enrichFeature (areaFn : Json → Option ℚ) (feature : Json) : Except RTErr Json := do
  let geometry ← propAccess (some feature) "geometry"
  let gt ← propAccess geometry "type"
  if gt = some (.str "Polygon") then
    match areaFn feature with
    | none => throw .areaCalc
    | some aM2 =>
        let areaHa : ℚ := (jsRound ((aM2 / 10000) * 1000) : ℚ) / 1000
        let props ← propAccess (some feature) "properties"
        let newProps := setField (spreadFields props) "area_ha"
          (.num (jsNumOfMilli (jsRound ((aM2 / 10000) * 1000))))
        let _ := areaHa
        return .obj (setField (spreadFields (some feature)) "properties" (.obj newProps))
  else
    return feature

/-- `enrichWithArea(featureCollection)`: maps `enrichFeature` over the
`features` array and rebuilds the collection object. -/
def enrichWithArea (areaFn : Json → Option ℚ) (fc : Json) : Except RTErr Json :=
  match jsGet fc "features" with
  | some (.arr fs) => do
      let fs2 ← fs.mapM (enrichFeature areaFn)
      return .obj [("type", .str "FeatureCollection"), ("features", .arr fs2)]
  | _ => .error .typeError

-- =============================================================================
-- Route handlers (backend/src/routes/batch.ts)
-- =============================================================================

/-- The `compliance_status` values of eudr.types.ts. -/
inductive ComplianceStatus where
  | pending : ComplianceStatus
  | compliant : ComplianceStatus
  | non_compliant : ComplianceStatus
  | draft : ComplianceStatus
deriving DecidableEq, Repr

/-- The request fields of `POST /api/batch/mint` that the handler's control
flow reads (absent body fields are `none`).  The source field `to` is spelled
`toAddr` because `to` is not an identifier in this development. -/
structure MintRequest where
  toAddr : Option Json
  origin : Option Json
  supplierId : Option Json
  geolocation : Option Json
  deforestationCheck : Option Json
  legalityDocuments : Option Json

/-- The non-success outcomes of the mint handler.  The first four are the 400
responses it returns; `internalError` is the catch-all 500.  `inputTooLarge`
is modelled from the spec: the `InputTooLarge` rejection of the error
taxonomy (reject before normalization when the serialized input exceeds
`MAX_GEOJSON_SIZE_BYTES`); it is part of the response type so that whether
the handler ever produces it is a statable property. -/
inductive MintReject where
  | missingRequiredFields : MintReject
  | missingGeolocation : MintReject
  | invalidGeolocationFormat (e : NormErr) : MintReject
  | geolocationValidationFailed (r : GeoValidationResult) : MintReject
  | inputTooLarge : MintReject
  | internalError (e : RTErr) : MintReject
deriving DecidableEq, Repr

/-- `deforestationCheck?.status === true`. -/
def hasDeforestationCheckOf (req : MintRequest) : Bool :=
  optChainP req.deforestationCheck "status" = some (.bool true)

/-- `(legalityDocuments?.length || 0) > 0`. -/
def hasLegalityDocsOf (req : MintRequest) : Bool :=
  0 < jsLenOrZero req.legalityDocuments

/-- The mint handler up to the point where `compliance_status` is determined
(batch.ts lines 20-89): required-field checks, geolocation presence,
normalization (400 on failure), validation (400 when invalid, 500 when it
throws), enrichment and hashing, then the status computation copied verbatim
(including its dead `'draft'` branch). -/
def mintHandler (areaFn : Json → Option ℚ) (req : MintRequest) :
    Except MintReject ComplianceStatus :=
  if ¬ (jsTruthy req.toAddr ∧ jsTruthy req.origin ∧ jsTruthy req.supplierId) then
    .error .missingRequiredFields
  else if ¬ jsTruthy req.geolocation then
    .error .missingGeolocation
  else
    match normalizeToFeatureCollection req.geolocation with
    | .error e => .error (.invalidGeolocationFormat e)
    | .ok normalizedGeo =>
        match validateGeoJSON areaFn (some normalizedGeo) with
        | .error e => .error (.internalError e)
        | .ok geoValidation =>
            if ¬ geoValidation.valid then
              .error (.geolocationValidationFailed geoValidation)
            else
              match enrichWithArea areaFn normalizedGeo with
              | .error e => .error (.internalError e)
              | .ok enrichedGeo =>
                  let _geolocationHash := computeGeolocationHash enrichedGeo
                  .ok (if hasDeforestationCheckOf req ∧ hasLegalityDocsOf req ∧
                          geoValidation.valid = true then
                         .compliant
                       else if ¬ geoValidation.valid then .draft
                       else .pending)

/-- The non-success outcomes of `POST /api/batch/validate-geolocation`:
the 400 for a missing body field, the catch-all 500, and the spec-modelled
`InputTooLarge` rejection (statable, never produced — see `MintReject`). -/
inductive VgReject where
  | missingGeolocation : VgReject
  | inputTooLarge : VgReject
  | internalError : VgReject
deriving DecidableEq, Repr

/-- The validate-geolocation handler (batch.ts lines 334-358): presence check
then `validateGeoJSON`, plus the geolocation hash of the re-normalized input
when the report is valid. -/
def validateGeolocationHandler (areaFn : Json → Option ℚ)
    (geolocation : Option Json) :
    Except VgReject (GeoValidationResult × Option String) :=
  if ¬ jsTruthy geolocation then .error .missingGeolocation
  else
    match validateGeoJSON areaFn geolocation with
    | .error _ => .error .internalError
    | .ok validation =>
        if validation.valid then
          match normalizeToFeatureCollection geolocation with
          | .ok fc => .ok (validation, some (computeGeolocationHash fc))
          | .error _ => .error .internalError
        else .ok (validation, none)

-- =============================================================================
-- Shared helper definitions for the claim statements
-- =============================================================================

/-- An area oracle that always throws (the result never depends on it in the
places it is used). -/
def noAreaFn : Json → Option ℚ := fun _ => none

/-- A canonical feature object wrapping a geometry, with the key order the
service itself constructs. -/
def mkFeature (g : Json) (props : List (String × Json)) : Json :=
  .obj [("type", .str "Feature"), ("geometry", g), ("properties", .obj props)]

/-- Pure property read through a possibly-`undefined` value (agrees with
`propAccess` whenever the latter does not throw). -/
def jsGetOpt (v : Option Json) (k : String) : Option Json :=
  match v with
  | some j => jsGet j k
  | none => none

-- =============================================================================
-- C3: the `valid` flag equals emptiness of `errors`
-- =============================================================================

/-- C3: For every input, the ValidationReport returned by validateGeoJSON
satisfies valid == (errors.length == 0), including all early-return paths
(non-object input, normalization failure, empty features); warnings never
affect validity (the report's `valid` is a function of `errors` alone). -/
theorem validateGeoJSON_valid_iff_no_errors (areaFn : Json → Option ℚ)
    (input : Option Json) (r : GeoValidationResult)
    (h : validateGeoJSON areaFn input = .ok r) :
    r.valid = true ↔ r.errors = [] := by
  unfold validateGeoJSON at h
  split at h
  · cases h
    simp
  · split at h
    · cases h
      simp
    · dsimp only at h
      split at h
      · cases h
        simp
      · split at h
        · exact absurd h (by simp)
        · cases h
          simp [List.isEmpty_iff]

/-- Witness for C3 at a concrete non-object input. -/
theorem validateGeoJSON_valid_iff_no_errors_witness :
    ((⟨false, [.inputNotObject], [], [], 0, 0⟩ : GeoValidationResult).valid = true
      ↔ (⟨false, [.inputNotObject], [], [], 0, 0⟩ : GeoValidationResult).errors = []) :=
  validateGeoJSON_valid_iff_no_errors noAreaFn (some (.str "x")) _ rfl

-- =============================================================================
-- C2: validateGeoJSON on a feature with missing coordinates
-- =============================================================================

/-- A feature collection whose single feature is a Point with no
`coordinates` field. -/
def missingCoordsInput : Json :=
  .obj [("type", .str "FeatureCollection"),
        ("features", .arr [.obj [("type", .str "Feature"),
          ("geometry", .obj [("type", .str "Point")])]])]

/-- C2 (evaluation of the code at the failing input): `validateGeoJSON` does
not return a ValidationReport for a Point feature whose `coordinates` field is
missing — the unguarded `for (const value of coord)` iterates `undefined` and
the function throws a `TypeError`, which the mint route's catch-all turns
into a 500 rather than an itemized report. -/
theorem validateGeoJSON_throws_on_missing_coordinates :
    ∀ areaFn : Json → Option ℚ,
      validateGeoJSON areaFn (some missingCoordsInput) = .error .typeError ∧
      mintHandler areaFn
        { toAddr := some (.str "0xabc"), origin := some (.str "GH"),
          supplierId := some (.str "S1"), geolocation := some missingCoordsInput,
          deforestationCheck := none, legalityDocuments := none }
        = .error (.internalError .typeError) :=
  fun _ => ⟨rfl, rfl⟩

-- =============================================================================
-- C8: the three accepted input shapes of the normalizer
-- =============================================================================

/-- The three input shapes `normalizeToFeatureCollection` accepts, written as
a predicate over the raw input: a truthy object that is a FeatureCollection
with a `features` array, a Feature with a truthy `geometry`, or a bare
`Point`/`Polygon` geometry. -/
def isNormalizableShape (input : Option Json) : Bool :=
  match input with
  | none => false
  | some j =>
      jsTruthy (some j) && jsTypeofObject j &&
      (decide (jsGet j "type" = some (.str "FeatureCollection")) && isJsArray (jsGet j "features")
       || decide (jsGet j "type" = some (.str "Feature")) && jsTruthy (jsGet j "geometry")
       || decide (jsGet j "type" = some (.str "Point"))
       || decide (jsGet j "type" = some (.str "Polygon")))

/-- Truthiness of an object value. -/
theorem jsTruthy_someObj (fields : List (String × Json)) :
    jsTruthy (some (.obj fields)) = true := rfl

/-- C8: normalizeToFeatureCollection accepts exactly three shapes, in priority
order — a FeatureCollection object with a features array is passed through, a
Feature object with a geometry is wrapped into a one-element collection, a
bare Point/Polygon is wrapped as a single feature with empty properties — and
every other input (including non-objects) fails with the MalformedGeometry
exception; consequently the three shapes of the same logical geometry yield
the identical canonical collection. -/
theorem normalizeToFeatureCollection_shapes :
    (∀ fields fs, jsLookup fields "type" = some (.str "FeatureCollection") →
        jsLookup fields "features" = some (.arr fs) →
        normalizeToFeatureCollection (some (.obj fields)) = .ok (.obj fields))
    ∧ (∀ fields g, jsLookup fields "type" = some (.str "Feature") →
        jsLookup fields "geometry" = some g → jsTruthy (some g) = true →
        normalizeToFeatureCollection (some (.obj fields)) =
          .ok (.obj [("type", .str "FeatureCollection"), ("features", .arr [.obj fields])]))
    ∧ (∀ fields, (jsLookup fields "type" = some (.str "Point") ∨
          jsLookup fields "type" = some (.str "Polygon")) →
        normalizeToFeatureCollection (some (.obj fields)) =
          .ok (.obj [("type", .str "FeatureCollection"),
            ("features", .arr [mkFeature (.obj fields) []])]))
    ∧ (∀ input, isNormalizableShape input = false →
        ∃ e, normalizeToFeatureCollection input = .error e)
    ∧ (∀ g, (jsGet g "type" = some (.str "Point") ∨ jsGet g "type" = some (.str "Polygon")) →
        normalizeToFeatureCollection (some g) =
            normalizeToFeatureCollection (some (mkFeature g [])) ∧
          normalizeToFeatureCollection (some g) =
            normalizeToFeatureCollection
              (some (.obj [("type", .str "FeatureCollection"),
                ("features", .arr [mkFeature g []])]))) := by
  refine ⟨?_, ?_, ?_, ?_, ?_⟩
  · intro fields fs h1 h2
    simp [normalizeToFeatureCollection, jsTruthy, jsTypeofObject, jsGet, h1, h2, isJsArray]
  · intro fields g h1 h2 h3
    simp [normalizeToFeatureCollection, jsTypeofObject, jsGet, h1, h2, h3, isJsArray,
      jsTruthy_someObj]
  · intro fields h1
    rcases h1 with h1 | h1 <;>
      simp [normalizeToFeatureCollection, jsTruthy, jsTypeofObject, jsGet, h1, isJsArray,
        mkFeature]
  · intro input hsh
    cases input with
    | none => exact ⟨.invalidInput, rfl⟩
    | some j =>
        by_cases h1 : jsTruthy (some j) = true ∧ jsTypeofObject j = true
        · by_cases h2 : jsGet j "type" = some (.str "FeatureCollection") ∧
              isJsArray (jsGet j "features") = true
          · simp [isNormalizableShape, h1.1, h1.2, h2.1, h2.2] at hsh
          · by_cases h3 : jsGet j "type" = some (.str "Feature") ∧
                jsTruthy (jsGet j "geometry") = true
            · simp [isNormalizableShape, h1.1, h1.2, h3.1, h3.2] at hsh
            · by_cases h4 : jsGet j "type" = some (.str "Point") ∨
                  jsGet j "type" = some (.str "Polygon")
              · rcases h4 with h4 | h4 <;> simp [isNormalizableShape, h1.1, h1.2, h4] at hsh
              · refine ⟨.unableToParse, ?_⟩
                simp [normalizeToFeatureCollection, h1.1, h1.2, h2, h3, h4]
        · refine ⟨.invalidInput, ?_⟩
          have : ¬ (jsTruthy (some j) = true ∧ jsTypeofObject j = true) := h1
          simp [normalizeToFeatureCollection, this]
  · intro g hg
    have hobj : ∃ fields, g = .obj fields := by
      cases g with
      | obj fields => exact ⟨fields, rfl⟩
      | null => simp [jsGet] at hg
      | bool b => simp [jsGet] at hg
      | num n => simp [jsGet] at hg
      | str s => simp [jsGet] at hg
      | arr xs => simp [jsGet] at hg
    obtain ⟨fields, rfl⟩ := hobj
    simp only [jsGet] at hg
    rcases hg with h1 | h1 <;>
      constructor <;>
        simp [normalizeToFeatureCollection, jsTruthy, jsTypeofObject, jsGet, h1, isJsArray,
          mkFeature, jsLookup]

/-- Witness for C8: a concrete empty FeatureCollection passes through, and the
three shapes of a concrete Point geometry normalize identically. -/
theorem normalizeToFeatureCollection_shapes_witness :
    normalizeToFeatureCollection
        (some (.obj [("type", .str "FeatureCollection"), ("features", .arr [])])) =
      .ok (.obj [("type", .str "FeatureCollection"), ("features", .arr [])]) ∧
    (normalizeToFeatureCollection (some (.obj [("type", .str "Point"),
          ("coordinates", .arr [.num ⟨3123456, 6⟩, .num ⟨7123456, 6⟩])])) =
        normalizeToFeatureCollection (some (mkFeature (.obj [("type", .str "Point"),
          ("coordinates", .arr [.num ⟨3123456, 6⟩, .num ⟨7123456, 6⟩])]) [])) ∧
      normalizeToFeatureCollection (some (.obj [("type", .str "Point"),
          ("coordinates", .arr [.num ⟨3123456, 6⟩, .num ⟨7123456, 6⟩])])) =
        normalizeToFeatureCollection
          (some (.obj [("type", .str "FeatureCollection"),
            ("features", .arr [mkFeature (.obj [("type", .str "Point"),
              ("coordinates", .arr [.num ⟨3123456, 6⟩, .num ⟨7123456, 6⟩])]) []])]))) :=
  ⟨normalizeToFeatureCollection_shapes.1 _ [] rfl rfl,
   normalizeToFeatureCollection_shapes.2.2.2.2 _ (Or.inl rfl)⟩

-- =============================================================================
-- C10: the mint handler's 'draft' branch is dead
-- =============================================================================

/-- C10: in the mint handler the branch assigning compliance status 'draft' is
unreachable — it requires the geolocation validation to be invalid, but the
handler has already returned a 400 in that case; for every successfully
minted batch the status is 'compliant' iff `deforestationCheck?.status ===
true` and at least one legality document is supplied, and 'pending'
otherwise. -/
theorem mintHandler_draft_unreachable (areaFn : Json → Option ℚ)
    (req : MintRequest) (st : ComplianceStatus)
    (h : mintHandler areaFn req = .ok st) :
    st ≠ .draft ∧
      (st = .compliant ↔
        hasDeforestationCheckOf req = true ∧ hasLegalityDocsOf req = true) ∧
      (st = .pending ↔
        ¬ (hasDeforestationCheckOf req = true ∧ hasLegalityDocsOf req = true)) := by
  unfold mintHandler at h
  split at h
  · exact absurd h (by simp)
  · split at h
    · exact absurd h (by simp)
    · split at h
      · exact absurd h (by simp)
      · split at h
        · exact absurd h (by simp)
        · rename_i geoValidation _
          split at h
          · exact absurd h (by simp)
          · rename_i hvalid
            split at h
            · exact absurd h (by simp)
            · rw [not_not] at hvalid
              cases h
              by_cases hc : hasDeforestationCheckOf req = true ∧
                  hasLegalityDocsOf req = true ∧ geoValidation.valid = true
              · rw [if_pos hc]
                exact ⟨by simp, iff_of_true rfl ⟨hc.1, hc.2.1⟩,
                  iff_of_false (by simp) (not_not_intro ⟨hc.1, hc.2.1⟩)⟩
              · rw [if_neg hc]
                have hpair : ¬ (hasDeforestationCheckOf req = true ∧
                    hasLegalityDocsOf req = true) := fun hdl =>
                  hc ⟨hdl.1, hdl.2, hvalid⟩
                simp only [hvalid, not_true, if_false]
                exact ⟨by simp, iff_of_false (by simp) hpair, by simpa using hpair⟩

/-- A geolocation input that validates cleanly: a bare Point with 6-decimal
coordinates. -/
def cleanPointGeo : Json :=
  .obj [("type", .str "Point"),
        ("coordinates", .arr [.num ⟨3123456, 6⟩, .num ⟨7123456, 6⟩])]

/-- A fully-populated mint request used as the concrete witness input. -/
def mintReqW : MintRequest :=
  { toAddr := some (.str "0xabc"), origin := some (.str "GH"),
    supplierId := some (.str "S1"), geolocation := some cleanPointGeo,
    deforestationCheck := some (.obj [("status", .bool true)]),
    legalityDocuments := some (.arr [.obj [("type", .str "land_tenure")]]) }

/-- Witness for C10: the concrete request mints with status 'compliant'. -/
theorem mintHandler_draft_unreachable_witness :
    ComplianceStatus.compliant ≠ .draft ∧
      (ComplianceStatus.compliant = .compliant ↔
        hasDeforestationCheckOf mintReqW = true ∧ hasLegalityDocsOf mintReqW = true) ∧
      (ComplianceStatus.compliant = .pending ↔
        ¬ (hasDeforestationCheckOf mintReqW = true ∧ hasLegalityDocsOf mintReqW = true)) :=
  mintHandler_draft_unreachable noAreaFn mintReqW .compliant (by rfl)

-- =============================================================================
-- C4: no entry point rejects oversized input
-- =============================================================================

/-- Whether a mint outcome is the spec's `InputTooLarge` rejection. -/
def isMintSizeReject : Except MintReject ComplianceStatus → Bool
  | .error .inputTooLarge => true
  | _ => false

/-- Whether a validate-geolocation outcome is the spec's `InputTooLarge`
rejection. -/
def isVgSizeReject : Except VgReject (GeoValidationResult × Option String) → Bool
  | .error .inputTooLarge => true
  | _ => false

/-- C4 (evaluation of the code): neither the mint handler nor the
validate-geolocation handler ever rejects an input as too large — the
`validateFileSize` guard exists (and would fail just above the cap) but no
entry point invokes it, so inputs of any serialized size proceed to
normalization. -/
theorem mint_and_validate_never_reject_oversized :
    ∀ (areaFn : Json → Option ℚ) (req : MintRequest) (g : Option Json),
      isMintSizeReject (mintHandler areaFn req) = false ∧
      isVgSizeReject (validateGeolocationHandler areaFn g) = false ∧
      validateFileSize (MAX_GEOJSON_SIZE_BYTES + 1) = false := by
  intro areaFn req g
  refine ⟨?_, ?_, by decide⟩
  · unfold mintHandler
    repeat' split
    all_goals simp [isMintSizeReject]
  · unfold validateGeolocationHandler
    repeat' split
    all_goals simp [isVgSizeReject]

-- =============================================================================
-- C1: the content hash versus logical JSON equality
-- =============================================================================

/-- Decidable equality of `Except` outcomes, used to evaluate the model on
concrete inputs. -/
instance exceptDecEq {ε α : Type} [DecidableEq ε] [DecidableEq α] :
    DecidableEq (Except ε α)
  | .error e, .error f => decidable_of_iff (e = f) (by simp)
  | .error _, .ok _ => .isFalse (by simp)
  | .ok _, .error _ => .isFalse (by simp)
  | .ok a, .ok b => decidable_of_iff (a = b) (by simp)

/-- Lexicographic character-list comparison (by code point), the key order for
the canonical form. -/
def charListLe : List Char → List Char → Bool
  | [], _ => true
  | _ :: _, [] => false
  | a :: as, b :: bs =>
      if a.toNat < b.toNat then true
      else if b.toNat < a.toNat then false
      else charListLe as bs

/-- Insertion of a key-value pair into a key-sorted field list. -/
def insertByKey (kv : String × Json) : List (String × Json) → List (String × Json)
  | [] => [kv]
  | kv2 :: rest =>
      if charListLe kv.1.data kv2.1.data then kv :: kv2 :: rest
      else kv2 :: insertByKey kv rest

/-- Key-sort of a field list (insertion sort). -/
def sortByKey (fields : List (String × Json)) : List (String × Json) :=
  fields.foldr insertByKey []

/-- Canonical form of a JSON value: object keys sorted recursively (fuelled by
structural size, which the recursion never exhausts). -/
def canonJsonF : Nat → Json → Json
  | _, .null => .null
  | _, .bool b => .bool b
  | _, .num n => .num n
  | _, .str s => .str s
  | 0, j => j
  | fuel + 1, .arr xs => .arr (xs.map (canonJsonF fuel))
  | fuel + 1, .obj kvs => .obj (sortByKey (kvs.map fun kv => (kv.1, canonJsonF fuel kv.2)))

/-- Logical equality of two JSON values: equal after recursively sorting all
object keys — i.e. equality as JSON values regardless of object key order (and
of serialization whitespace, which the data model does not record at all). -/
def jsonLogicalEq (a b : Json) : Bool := canonJsonF a.size a == canonJsonF b.size b

/-- The same empty FeatureCollection with its two keys in the two possible
orders. -/
def fcKeyOrder1 : Json :=
  .obj [("type", .str "FeatureCollection"), ("features", .arr [])]

/-- See `fcKeyOrder1`. -/
def fcKeyOrder2 : Json :=
  .obj [("features", .arr []), ("type", .str "FeatureCollection")]

set_option maxRecDepth 100000 in
/-- C1 counterexample: two GeoCollections with identical logical content
(equal as JSON values — here literally the same two fields in a different
insertion order), both of which the normalizer passes through unchanged,
receive different digests from `computeGeolocationHash`, because the hash
covers `JSON.stringify` of the collection as-is and `JSON.stringify` emits
keys in insertion order. -/
theorem computeGeolocationHash_key_order_sensitive :
    jsonLogicalEq fcKeyOrder1 fcKeyOrder2 = true ∧
    normalizeToFeatureCollection (some fcKeyOrder1) = .ok fcKeyOrder1 ∧
    normalizeToFeatureCollection (some fcKeyOrder2) = .ok fcKeyOrder2 ∧
    computeGeolocationHash fcKeyOrder1 ≠ computeGeolocationHash fcKeyOrder2 := by
  refine ⟨by decide, by decide, by decide, by decide⟩

/-- C1 as amended: the digest is a deterministic function of the serialized
collection — collections with identical `JSON.stringify` output (in
particular, the same collection value, hence `hash(normalize(x)) ==
hash(normalize(x))`) always hash identically. -/
theorem computeGeolocationHash_deterministic :
    (∀ x y : Json, jsonStringify x = jsonStringify y →
        computeGeolocationHash x = computeGeolocationHash y) ∧
    (∀ (input : Option Json) (fc : Json),
        normalizeToFeatureCollection input = .ok fc →
        computeGeolocationHash fc = computeGeolocationHash fc) := by
  constructor
  · intro x y h
    unfold computeGeolocationHash
    rw [h]
  · intro input fc _
    rfl

/-- Witness for the amended C1 at the concrete empty collection. -/
theorem computeGeolocationHash_deterministic_witness :
    computeGeolocationHash fcKeyOrder1 = computeGeolocationHash fcKeyOrder1 ∧
    computeGeolocationHash fcKeyOrder1 = computeGeolocationHash fcKeyOrder1 :=
  ⟨computeGeolocationHash_deterministic.1 fcKeyOrder1 fcKeyOrder1 rfl,
   computeGeolocationHash_deterministic.2 (some fcKeyOrder1) fcKeyOrder1 rfl⟩

-- =============================================================================
-- Decimal-rendering lemmas (toward C5)
-- =============================================================================

/-- Digit characters are digits. -/
theorem digitChar_isDigit (d : Nat) (hd : d < 10) :
    (Char.ofNat (48 + d)).isDigit = true := by
  interval_cases d <;> decide

/-- Every character produced by the digit renderer is a digit. -/
theorem natToCharsAux_digits (fuel : Nat) :
    ∀ (n : Nat) (acc : List Char), (∀ c ∈ acc, c.isDigit = true) →
      ∀ c ∈ natToCharsAux fuel n acc, c.isDigit = true := by
  induction fuel with
  | zero => intro n acc hacc c hc; exact hacc c hc
  | succ fuel ih =>
      intro n acc hacc c hc
      unfold natToCharsAux at hc
      dsimp only at hc
      have hext : ∀ c2 ∈ Char.ofNat (48 + n % 10) :: acc, c2.isDigit = true := by
        intro c2 hc2
        rcases List.mem_cons.mp hc2 with h | h
        · subst h; exact digitChar_isDigit _ (Nat.mod_lt _ (by norm_num))
        · exact hacc c2 h
      split at hc
      · exact hext c hc
      · exact ih (n / 10) _ hext c hc

/-- Every character of `natChars n` is a digit. -/
theorem natChars_digits (n : Nat) : ∀ c ∈ natChars n, c.isDigit = true :=
  natToCharsAux_digits _ _ _ (by simp)

/-- The digit renderer emits at most `k` characters for numbers below
`10 ^ k`. -/
theorem natToCharsAux_length (fuel : Nat) :
    ∀ (n k : Nat) (acc : List Char), n < 10 ^ k → 1 ≤ k →
      (natToCharsAux fuel n acc).length ≤ k + acc.length := by
  induction fuel with
  | zero => intro n k acc _ hk; simp [natToCharsAux]
  | succ fuel ih =>
      intro n k acc hn hk
      unfold natToCharsAux
      dsimp only
      split
      · simp; omega
      · rename_i hge
        have hge10 : 10 ≤ n := by omega
        have hk2 : 2 ≤ k := by
          by_contra hlt
          have hk1 : k = 1 := by omega
          subst hk1
          simp at hn
          omega
        have hpow : (10:Nat) ^ k = 10 ^ (k - 1) * 10 := by
          conv_lhs => rw [show k = (k - 1) + 1 by omega]
          ring
        have hdiv : n / 10 < 10 ^ (k - 1) := by
          rw [Nat.div_lt_iff_lt_mul (by norm_num)]
          omega
        have := ih (n / 10) (k - 1) (Char.ofNat (48 + n % 10) :: acc) hdiv (by omega)
        simp at this ⊢
        omega

/-- `natChars n` has at most `k` characters when `n < 10 ^ k`. -/
theorem natChars_length_le (n k : Nat) (hn : n < 10 ^ k) (hk : 1 ≤ k) :
    (natChars n).length ≤ k := by
  have := natToCharsAux_length (n + 1) n k [] hn hk
  simpa using this

/-- The padded fractional block has exactly `e` characters. -/
theorem fracPad_length (e fp : Nat) (hfp : fp < 10 ^ e) (he : 1 ≤ e) :
    (fracPad e fp).length = e := by
  have := natChars_length_le fp e hfp he
  simp [fracPad]
  omega

/-- Every character of the fractional block is a digit. -/
theorem fracPad_digits (e fp : Nat) : ∀ c ∈ fracPad e fp, c.isDigit = true := by
  intro c hc
  rcases List.mem_append.mp hc with h | h
  · rw [List.eq_of_mem_replicate h]; decide
  · exact natChars_digits fp c h

/-- The first `'.'` of `pre ++ '.' :: suf` sits right after `pre`. -/
theorem indexOf_append_dot (pre suf : List Char) (h : '.' ∉ pre) :
    (pre ++ '.' :: suf).indexOf '.' = pre.length := by
  induction pre with
  | nil => simp
  | cons a pre ih =>
      have ha : a ≠ '.' := fun he => h (he ▸ List.mem_cons_self a pre)
      have hrest : '.' ∉ pre := fun hm => h (List.mem_cons_of_mem a hm)
      simp only [List.cons_append, List.length_cons]
      rw [List.indexOf_cons_ne _ (by simpa using ha), ih hrest]

/-- A digit list contains no `'.'`. -/
theorem dot_not_mem_of_digits (cs : List Char) (h : ∀ c ∈ cs, c.isDigit = true) :
    '.' ∉ cs := by
  intro hmem
  have := h '.' hmem
  simp [Char.isDigit] at this

/-- `getDecimalPrecision` of a rendered number is its fractional length: the
digit count after the decimal point in the decimal rendering is `e`. -/
theorem precisionOfChars_numChars (n : JsNum) : precisionOfChars (numChars n) = n.e := by
  unfold numChars
  dsimp only
  by_cases he : n.e = 0
  · rw [if_pos he, he]
    unfold precisionOfChars
    rw [if_neg]
    intro hmem
    rcases List.mem_append.mp hmem with h | h
    · split at h <;> simp_all
    · exact dot_not_mem_of_digits _ (natChars_digits _) h
  · rw [if_neg he]
    unfold precisionOfChars
    have hpre : '.' ∉ (if n.m < 0 then ['-'] else []) ++ natChars (n.m.natAbs / 10 ^ n.e) := by
      intro hmem
      rcases List.mem_append.mp hmem with h | h
      · split at h <;> simp_all
      · exact dot_not_mem_of_digits _ (natChars_digits _) h
    have hassoc :
        (if n.m < 0 then ['-'] else []) ++ natChars (n.m.natAbs / 10 ^ n.e) ++
            '.' :: fracPad n.e (n.m.natAbs % 10 ^ n.e) =
          ((if n.m < 0 then ['-'] else []) ++ natChars (n.m.natAbs / 10 ^ n.e)) ++
            '.' :: fracPad n.e (n.m.natAbs % 10 ^ n.e) := by
      simp [List.append_assoc]
    rw [hassoc, if_pos (by simp), indexOf_append_dot _ _ hpre]
    have hfrac : (fracPad n.e (n.m.natAbs % 10 ^ n.e)).length = n.e :=
      fracPad_length _ _ (Nat.mod_lt _ (Nat.pos_pow_of_pos _ (by norm_num))) (by omega)
    simp [hfrac]
    omega

-- =============================================================================
-- Well-formed geometries and the spec-side minimum precision (C5)
-- =============================================================================

/-- Whether a JS value is a number. -/
def isNumJson : Json → Bool
  | .num _ => true
  | _ => false

/-- A coordinate position: an array of numbers. -/
def wfPosition : Json → Bool
  | .arr xs => xs.all isNumJson
  | _ => false

/-- A polygon ring: an array of positions. -/
def wfRing : Json → Bool
  | .arr ps => ps.all wfPosition
  | _ => false

/-- A well-formed geometry object: a `Point` whose `coordinates` is an array
of numbers, or a `Polygon` whose `coordinates` is an array of rings. -/
def wfGeometry (g : Json) : Bool :=
  match jsGet g "type", jsGet g "coordinates" with
  | some (.str "Point"), some (.arr cs) => cs.all isNumJson
  | some (.str "Polygon"), some (.arr rings) => rings.all wfRing
  | _, _ => false

/-- The numbers among a list of JS values. -/
def numsOf (xs : List Json) : List JsNum :=
  xs.filterMap fun x => match x with | .num n => some n | _ => none

/-- The numeric components of one coordinate position. -/
def positionNums : Json → List JsNum
  | .arr xs => numsOf xs
  | _ => []

/-- Following the spec (§4.3): the numeric components of every coordinate of a
geometry — a Point's coordinate components, or the components of every
position of every ring of a Polygon. -/
def specComponents (g : Json) : List JsNum :=
  match jsGet g "type", jsGet g "coordinates" with
  | some (.str "Point"), some (.arr cs) => numsOf cs
  | some (.str "Polygon"), some (.arr rings) =>
      rings.flatMap fun r => match r with | .arr ps => ps.flatMap positionNums | _ => []
  | _, _ => []

/-- Following the spec (§4.3): the minimum, over all coordinate components, of
the count of digits after the decimal point in the component's canonical
decimal representation (a `JsNum`'s fractional length), or `0` when the
geometry has no coordinates. -/
def specMinDecimalPrecision (g : Json) : Nat :=
  match (specComponents g).map JsNum.e with
  | [] => 0
  | p :: ps => ps.foldl min p

/-- `bind` on a success. -/
theorem exceptBind_ok {ε α β : Type} (a : α) (f : α → Except ε β) :
    ((Except.ok a : Except ε α) >>= f) = f a := rfl

/-- `bind` on a failure. -/
theorem exceptBind_err {ε α β : Type} (e : ε) (f : α → Except ε β) :
    ((Except.error e : Except ε α) >>= f) = .error e := rfl

/-- The running-minimum update of `getMinCoordinatePrecision` (`none` plays
`Infinity`). -/
def minStep (a : Option Nat) (p : Nat) : Option Nat :=
  match a with
  | none => some p
  | some m => if p < m then some p else some m

/-- The running minimum started from a concrete value is the plain minimum. -/
theorem foldl_minStep_some (ps : List Nat) :
    ∀ m : Nat, ps.foldl minStep (some m) = some (ps.foldl min m) := by
  induction ps with
  | nil => intro m; rfl
  | cons q ps ih =>
      intro m
      have : minStep (some m) q = some (min m q) := by
        show (if q < m then some q else some m) = some (min m q)
        split <;> (congr 1; omega)
      simp only [List.foldl_cons, this, ih]

/-- The running minimum from `Infinity` is the minimum of a nonempty list. -/
theorem foldl_minStep_none (ps : List Nat) :
    ps.foldl minStep none =
      match ps with
      | [] => none
      | p :: ps2 => some (ps2.foldl min p) := by
  cases ps with
  | nil => rfl
  | cons p ps2 => simpa using foldl_minStep_some ps2 p

/-- `getDecimalPrecision` on a number value yields its fractional length. -/
theorem getDecimalPrecision_num (n : JsNum) :
    getDecimalPrecision (some (.num n)) = .ok n.e := by
  have hdisp : jsDisplayChars (.num n) = numChars n := rfl
  simp [getDecimalPrecision, hdisp, precisionOfChars_numChars]

/-- The component loop over an all-numbers coordinate computes the running
minimum of the fractional lengths. -/
theorem minPrecVals_nums (cs : List Json) :
    ∀ acc : Option Nat, cs.all isNumJson = true →
      minPrecVals (cs.map some) acc = .ok (((numsOf cs).map JsNum.e).foldl minStep acc) := by
  induction cs with
  | nil => intro acc _; rfl
  | cons x cs ih =>
      intro acc hall
      simp only [List.all_cons, Bool.and_eq_true] at hall
      cases x with
      | num n =>
          simp only [List.map_cons, minPrecVals, getDecimalPrecision_num, exceptBind_ok]
          rw [show (numsOf (.num n :: cs)) = n :: numsOf cs from rfl]
          simp only [List.map_cons, List.foldl_cons]
          rw [ih _ hall.2]
          rfl
      | null => simp [isNumJson] at hall
      | bool b => simp [isNumJson] at hall
      | str s => simp [isNumJson] at hall
      | arr xs => simp [isNumJson] at hall
      | obj kvs => simp [isNumJson] at hall

/-- The coordinate loop over all-position coordinates computes the running
minimum of all their components' fractional lengths. -/
theorem minPrecLoop_positions (ps : List Json) :
    ∀ acc : Option Nat, ps.all wfPosition = true →
      minPrecLoop (ps.map some) acc =
        .ok (((ps.flatMap positionNums).map JsNum.e).foldl minStep acc) := by
  induction ps with
  | nil => intro acc _; rfl
  | cons p ps ih =>
      intro acc hall
      simp only [List.all_cons, Bool.and_eq_true] at hall
      cases p with
      | arr xs =>
          simp only [List.map_cons, minPrecLoop, jsIterate, exceptBind_ok]
          rw [minPrecVals_nums xs _ (by simpa [wfPosition] using hall.1), exceptBind_ok]
          simp only [List.flatMap_cons, positionNums, List.map_append, List.foldl_append]
          exact ih _ hall.2
      | null => simp [wfPosition] at hall
      | bool b => simp [wfPosition] at hall
      | num n => simp [wfPosition] at hall
      | str s => simp [wfPosition] at hall
      | obj kvs => simp [wfPosition] at hall

/-- Flattening rings and collecting position components agrees with
collecting ring-by-ring. -/
theorem jsFlat_positionNums (rings : List Json) :
    (jsFlat rings).flatMap positionNums =
      rings.flatMap fun r => match r with | .arr ps => ps.flatMap positionNums | _ => [] := by
  induction rings with
  | nil => rfl
  | cons r rings ih =>
      cases r with
      | arr ps => simp only [jsFlat, List.flatMap_cons] at ih ⊢; rw [List.flatMap_append, ih]
      | null => simpa [jsFlat, positionNums] using ih
      | bool b => simpa [jsFlat, positionNums] using ih
      | num n => simpa [jsFlat, positionNums] using ih
      | str s => simpa [jsFlat, positionNums] using ih
      | obj kvs => simpa [jsFlat, positionNums] using ih

/-- Flattening well-formed rings yields well-formed positions. -/
theorem jsFlat_wfPosition (rings : List Json) (h : rings.all wfRing = true) :
    (jsFlat rings).all wfPosition = true := by
  induction rings with
  | nil => rfl
  | cons r rings ih =>
      simp only [List.all_cons, Bool.and_eq_true] at h
      cases r with
      | arr ps =>
          simp only [jsFlat, List.flatMap_cons, List.all_append, Bool.and_eq_true]
          exact ⟨by simpa [wfRing] using h.1, by simpa [jsFlat] using ih h.2⟩
      | null => simp [wfRing] at h
      | bool b => simp [wfRing] at h
      | num n => simp [wfRing] at h
      | str s => simp [wfRing] at h
      | obj kvs => simp [wfRing] at h

/-- `pure` in the `Except` monad is `ok`. -/
theorem exceptPure {ε α : Type} (a : α) : (pure a : Except ε α) = .ok a := rfl

/-- The `Infinity ? 0 : min` readout of the running minimum. -/
theorem minFold_getD (es : List Nat) :
    (es.foldl minStep none).getD 0 =
      match es with | [] => 0 | p :: ps => ps.foldl min p := by
  rw [foldl_minStep_none]
  cases es <;> rfl

/-- C5 part 1: on a well-formed geometry, `getMinCoordinatePrecision` returns
exactly the spec's minimum decimal precision. -/
theorem getMinCoordinatePrecision_wf (g : Json) (hwf : wfGeometry g = true) :
    getMinCoordinatePrecision (some g) = .ok (specMinDecimalPrecision g) := by
  unfold wfGeometry at hwf
  split at hwf
  · rename_i cs htype hcoords
    obtain ⟨fields, rfl⟩ : ∃ fields, g = .obj fields := by
      cases g with
      | obj fields => exact ⟨fields, rfl⟩
      | null => simp [jsGet] at htype
      | bool b => simp [jsGet] at htype
      | num n => simp [jsGet] at htype
      | str s => simp [jsGet] at htype
      | arr xs => simp [jsGet] at htype
    simp only [jsGet] at htype hcoords
    unfold getMinCoordinatePrecision extractCoordinates
    simp only [propAccess, exceptBind_ok, htype, hcoords, exceptPure]
    simp only [if_true, exceptBind_ok]
    unfold minPrecLoop
    simp only [jsIterate, exceptBind_ok, exceptPure]
    rw [minPrecVals_nums cs none hwf, exceptBind_ok]
    unfold minPrecLoop
    simp only [exceptBind_ok, exceptPure]
    rw [minFold_getD]
    unfold specMinDecimalPrecision specComponents
    simp only [jsGet, htype, hcoords]
  · rename_i rings htype hcoords
    obtain ⟨fields, rfl⟩ : ∃ fields, g = .obj fields := by
      cases g with
      | obj fields => exact ⟨fields, rfl⟩
      | null => simp [jsGet] at htype
      | bool b => simp [jsGet] at htype
      | num n => simp [jsGet] at htype
      | str s => simp [jsGet] at htype
      | arr xs => simp [jsGet] at htype
    simp only [jsGet] at htype hcoords
    unfold getMinCoordinatePrecision extractCoordinates
    simp only [propAccess, exceptBind_ok, htype, hcoords, exceptPure]
    rw [if_neg (by decide)]
    simp only [if_true, exceptBind_ok]
    rw [minPrecLoop_positions (jsFlat rings) none (jsFlat_wfPosition rings hwf), exceptBind_ok]
    rw [minFold_getD]
    unfold specMinDecimalPrecision specComponents
    simp only [jsGet, htype, hcoords]
    rw [jsFlat_positionNums]
  · exact absurd hwf (by simp)

-- =============================================================================
-- Pure characterization of one feature-loop iteration on well-formed features
-- =============================================================================

/-- Optional chaining never throws and agrees with its pure form. -/
theorem optChain_eq (v : Option Json) (k : String) :
    optChain v k = .ok (optChainP v k) := by
  cases v with
  | none => rfl
  | some j => cases j <;> rfl

/-- A well-formed geometry is a `Point` or a `Polygon`. -/
theorem wfGeometry_type (g : Json) (hwf : wfGeometry g = true) :
    jsGet g "type" = some (.str "Point") ∨ jsGet g "type" = some (.str "Polygon") := by
  unfold wfGeometry at hwf
  split at hwf
  · rename_i htype _
    exact Or.inl htype
  · rename_i htype _
    exact Or.inr htype
  · exact absurd hwf (by simp)

/-- A well-formed geometry is an object. -/
theorem wfGeometry_obj (g : Json) (hwf : wfGeometry g = true) :
    ∃ gfields, g = .obj gfields := by
  rcases wfGeometry_type g hwf with h | h <;>
  · cases g with
    | obj gfields => exact ⟨gfields, rfl⟩
    | null => simp [jsGet] at h
    | bool b => simp [jsGet] at h
    | num n => simp [jsGet] at h
    | str s => simp [jsGet] at h
    | arr xs => simp [jsGet] at h

/-- What `stepFeature` computes on a well-formed feature, as a pure function:
the feature's errors, warnings, result record, area and polygon-count
increments and plot-id bookkeeping (see `stepFeature_wf`). -/
def stepSpec (areaFn : Json → Option ℚ) (i : Nat) (seen : List Json)
    (f g : Json) (props : Option Json) : StepOut :=
  let m := specMinDecimalPrecision g
  let gt : GeomType := if jsGet g "type" = some (.str "Point") then .point else .polygon
  let precErrs : List VErr :=
    if m < MIN_COORDINATE_PRECISION then [.lowPrecision i m] else []
  let (areaHa, areaWarns, dTotal) :=
    if gt = .polygon then
      match areaFn f with
      | some aM2 => (some (aM2 / 10000), ([] : List VWarn), aM2 / 10000)
      | none => (none, [.areaFailed i], 0)
    else (none, [], 0)
  let areaProp := optChainP props "area_ha"
  let (largeErrs, pointWarns, dCount) :=
    if gt = .point then
      if ¬ jsTruthy areaProp then (([] : List VErr), [VWarn.pointNoArea i], 0)
      else
        match areaProp with
        | some (.num a) =>
            if LARGE_PLOT_THRESHOLD_HA ≤ a.toRat then
              ([VErr.largePlot i a], ([] : List VWarn), 1)
            else ([], [], 0)
        | _ => ([], [], 0)
    else ([], [], 0)
  let plotId := optChainP props "plot_id"
  let (dupErrs, plotWarns, seenOut) :=
    if jsTruthy plotId then
      match plotId with
      | some pid =>
          if seen.contains pid then ([VErr.duplicatePlotId i pid], ([] : List VWarn), seen)
          else ([], [], pid :: seen)
      | none => ([], [], seen)
    else ([], [VWarn.missingPlotId i], seen)
  ⟨precErrs ++ largeErrs ++ dupErrs,
   areaWarns ++ pointWarns ++ plotWarns,
   [⟨i, gt, areaHa, plotId, m⟩],
   dTotal, dCount, seenOut⟩

/-- On a feature object of type `Feature` with a well-formed geometry,
`stepFeature` succeeds and computes `stepSpec`. -/
theorem stepFeature_wf (areaFn : Json → Option ℚ) (i : Nat) (seen : List Json)
    (ffields : List (String × Json)) (g : Json)
    (htype : jsLookup ffields "type" = some (.str "Feature"))
    (hgeom : jsLookup ffields "geometry" = some g)
    (hwf : wfGeometry g = true) :
    stepFeature areaFn i seen (.obj ffields) =
      .ok (stepSpec areaFn i seen (.obj ffields) g (jsLookup ffields "properties")) := by
  obtain ⟨gfields, rfl⟩ := wfGeometry_obj g hwf
  have hgt := wfGeometry_type _ hwf
  unfold stepFeature
  rw [show propAccess (some (.obj ffields)) "type" = .ok (jsLookup ffields "type") from rfl,
    exceptBind_ok, htype]
  rw [if_neg (by simp)]
  rw [show propAccess (some (.obj ffields)) "geometry" = .ok (jsLookup ffields "geometry")
      from rfl, exceptBind_ok, hgeom]
  rw [if_neg (by simp [jsTruthy_someObj])]
  rw [show propAccess (some (.obj gfields)) "type" = .ok (jsGet (.obj gfields) "type")
      from rfl, exceptBind_ok]
  rw [if_neg (by rcases hgt with h | h <;> simp [h])]
  rw [getMinCoordinatePrecision_wf _ hwf, exceptBind_ok]
  simp only [show propAccess (some (.obj ffields)) "properties" =
      .ok (jsLookup ffields "properties") from rfl, optChain_eq, exceptBind_ok, exceptPure]
  unfold stepSpec
  rcases hgt with hT | hT
  all_goals
    simp only [hT, Option.some.injEq, Json.str.injEq, String.reduceEq, if_true, if_false,
      eq_self_iff_true, reduceCtorEq, exceptBind_ok, exceptPure, optChain_eq]
  all_goals repeat' (first | rfl | split)

-- =============================================================================
-- C5: the coordinate-precision rule
-- =============================================================================

/-- Whether an error is the low-precision message. -/
def isLowPrecisionErr : VErr → Bool
  | .lowPrecision _ _ => true
  | _ => false

/-- C5: for every well-formed geometry the validator's coordinate-precision
value is the spec's minimum over all coordinate components of the digit count
after the decimal point (0 for a geometry with no coordinates), and a feature
receives a low-precision error iff that minimum is below the threshold 6, the
error citing the precision actually found. -/
theorem coordinate_precision_rule (g : Json) (hwf : wfGeometry g = true) :
    getMinCoordinatePrecision (some g) = .ok (specMinDecimalPrecision g) ∧
    ∀ (areaFn : Json → Option ℚ) (i : Nat) (seen : List Json)
      (ffields : List (String × Json)) (out : StepOut),
      jsLookup ffields "type" = some (.str "Feature") →
      jsLookup ffields "geometry" = some g →
      stepFeature areaFn i seen (.obj ffields) = .ok out →
      out.errs.filter isLowPrecisionErr =
        (if specMinDecimalPrecision g < MIN_COORDINATE_PRECISION then
          [.lowPrecision i (specMinDecimalPrecision g)]
        else []) := by
  refine ⟨getMinCoordinatePrecision_wf g hwf, ?_⟩
  intro areaFn i seen ffields out htype hgeom hstep
  rw [stepFeature_wf areaFn i seen ffields g htype hgeom hwf] at hstep
  cases hstep
  unfold stepSpec
  dsimp only
  simp only [List.filter_append]
  repeat' split
  all_goals simp [isLowPrecisionErr]

/-- The Point geometry with components `[3.123456, 7.1]` from the spec's
example. -/
def pointPrecisionExample : Json :=
  .obj [("type", .str "Point"), ("coordinates", .arr [.num ⟨3123456, 6⟩, .num ⟨71, 1⟩])]

/-- A Point geometry with an empty coordinates array. -/
def pointNoCoordinates : Json :=
  .obj [("type", .str "Point"), ("coordinates", .arr [])]

/-- Witness for C5: the example geometry has minimum precision 1, and a
geometry with no coordinates yields 0. -/
theorem coordinate_precision_rule_witness :
    getMinCoordinatePrecision (some pointPrecisionExample) =
        .ok (specMinDecimalPrecision pointPrecisionExample) ∧
      specMinDecimalPrecision pointPrecisionExample = 1 ∧
      getMinCoordinatePrecision (some pointNoCoordinates) =
        .ok (specMinDecimalPrecision pointNoCoordinates) ∧
      specMinDecimalPrecision pointNoCoordinates = 0 :=
  ⟨(coordinate_precision_rule pointPrecisionExample (by decide)).1, by decide,
   (coordinate_precision_rule pointNoCoordinates (by decide)).1, by decide⟩

-- =============================================================================
-- C6: the Point large-plot rule
-- =============================================================================

/-- Whether an error is the large-plot (polygon-required) message. -/
def isLargePlotErr : VErr → Bool
  | .largePlot _ _ => true
  | _ => false

/-- C6: for every Point feature, a declared numeric `area_ha` at or above the
4-hectare threshold yields the polygon-required error citing the declared
area and increments `requiresPolygonCount`, a declared area below the
threshold yields neither, and a feature with no `area_ha` property yields the
warning and no polygon-required error. -/
theorem point_large_plot_rule (areaFn : Json → Option ℚ) (i : Nat) (seen : List Json)
    (ffields props : List (String × Json)) (g : Json) (out : StepOut)
    (htype : jsLookup ffields "type" = some (.str "Feature"))
    (hgeom : jsLookup ffields "geometry" = some g)
    (hwf : wfGeometry g = true)
    (hpt : jsGet g "type" = some (.str "Point"))
    (hprops : jsLookup ffields "properties" = some (.obj props))
    (hstep : stepFeature areaFn i seen (.obj ffields) = .ok out) :
    (∀ a : JsNum, jsLookup props "area_ha" = some (.num a) →
        (LARGE_PLOT_THRESHOLD_HA ≤ a.toRat →
          out.errs.filter isLargePlotErr = [.largePlot i a] ∧ out.dCount = 1) ∧
        (a.toRat < LARGE_PLOT_THRESHOLD_HA →
          out.errs.filter isLargePlotErr = [] ∧ out.dCount = 0)) ∧
    (jsLookup props "area_ha" = none →
        VWarn.pointNoArea i ∈ out.warns ∧
        out.errs.filter isLargePlotErr = [] ∧
        out.dCount = 0) := by
  rw [stepFeature_wf areaFn i seen ffields g htype hgeom hwf] at hstep
  cases hstep
  unfold stepSpec
  simp only [hprops, optChainP, hpt, eq_self_iff_true, if_true, reduceCtorEq, if_false]
  constructor
  · intro a ha
    simp only [ha]
    constructor
    · intro hth
      have hm : a.m ≠ 0 := by
        intro hm0
        rw [JsNum.toRat, hm0] at hth
        norm_num [LARGE_PLOT_THRESHOLD_HA] at hth
      have htruthy : jsTruthy (some (.num a)) = true := by
        simp [jsTruthy, hm]
      have hc1 : ¬ (¬ jsTruthy (some (.num a)) = true) := by simp [htruthy]
      rw [if_neg hc1, if_pos hth]
      (try dsimp only)
      refine ⟨?_, rfl⟩
      (try simp only [List.filter_append])
      repeat' split
      all_goals simp [isLargePlotErr]
    · intro hth
      have hnth : ¬ LARGE_PLOT_THRESHOLD_HA ≤ a.toRat := not_le.mpr hth
      by_cases hm : a.m = 0
      · have hc1 : ¬ jsTruthy (some (.num a)) = true := by simp [jsTruthy, hm]
        rw [if_pos hc1]
        (try dsimp only)
        refine ⟨?_, rfl⟩
        (try simp only [List.filter_append])
        repeat' split
        all_goals simp [isLargePlotErr]
      · have hc1 : ¬ (¬ jsTruthy (some (.num a)) = true) := by simp [jsTruthy, hm]
        rw [if_neg hc1, if_neg hnth]
        (try dsimp only)
        refine ⟨?_, rfl⟩
        (try simp only [List.filter_append])
        repeat' split
        all_goals simp [isLargePlotErr]
  · intro ha
    simp only [ha]
    have hc1 : ¬ jsTruthy none = true := by simp [jsTruthy]
    rw [if_pos hc1]
    (try dsimp only)
    refine ⟨by simp, ?_, rfl⟩
    (try simp only [List.filter_append])
    repeat' split
    all_goals simp [isLargePlotErr]

/-- `{area_ha: 4}`. -/
def propsA4 : List (String × Json) := [("area_ha", .num ⟨4, 0⟩)]

/-- `{area_ha: 3.999999}`. -/
def propsA39 : List (String × Json) := [("area_ha", .num ⟨3999999, 6⟩)]

/-- A Point feature with the given properties. -/
def featWithProps (props : List (String × Json)) : List (String × Json) :=
  [("type", .str "Feature"), ("geometry", cleanPointGeo), ("properties", .obj props)]

/-- Witness for C6: a declared 4.0 ha yields the polygon-required error and
increments the counter, 3.999999 ha yields neither, and a missing `area_ha`
yields only the warning. -/
theorem point_large_plot_rule_witness :
    ((stepSpec noAreaFn 0 [] (.obj (featWithProps propsA4)) cleanPointGeo
        (some (.obj propsA4))).errs.filter isLargePlotErr = [.largePlot 0 ⟨4, 0⟩] ∧
      (stepSpec noAreaFn 0 [] (.obj (featWithProps propsA4)) cleanPointGeo
        (some (.obj propsA4))).dCount = 1) ∧
    ((stepSpec noAreaFn 0 [] (.obj (featWithProps propsA39)) cleanPointGeo
        (some (.obj propsA39))).errs.filter isLargePlotErr = [] ∧
      (stepSpec noAreaFn 0 [] (.obj (featWithProps propsA39)) cleanPointGeo
        (some (.obj propsA39))).dCount = 0) ∧
    (VWarn.pointNoArea 0 ∈ (stepSpec noAreaFn 0 [] (.obj (featWithProps [])) cleanPointGeo
        (some (.obj []))).warns ∧
      (stepSpec noAreaFn 0 [] (.obj (featWithProps [])) cleanPointGeo
        (some (.obj []))).errs.filter isLargePlotErr = [] ∧
      (stepSpec noAreaFn 0 [] (.obj (featWithProps [])) cleanPointGeo
        (some (.obj []))).dCount = 0) :=
  ⟨((point_large_plot_rule noAreaFn 0 [] (featWithProps propsA4) propsA4 cleanPointGeo _
      rfl rfl (by decide) rfl rfl
      (stepFeature_wf noAreaFn 0 [] (featWithProps propsA4) cleanPointGeo rfl rfl
        (by decide))).1 ⟨4, 0⟩ rfl).1
      (by norm_num [JsNum.toRat, LARGE_PLOT_THRESHOLD_HA]),
   ((point_large_plot_rule noAreaFn 0 [] (featWithProps propsA39) propsA39 cleanPointGeo _
      rfl rfl (by decide) rfl rfl
      (stepFeature_wf noAreaFn 0 [] (featWithProps propsA39) cleanPointGeo rfl rfl
        (by decide))).1 ⟨3999999, 6⟩ rfl).2
      (by norm_num [JsNum.toRat, LARGE_PLOT_THRESHOLD_HA]),
   (point_large_plot_rule noAreaFn 0 [] (featWithProps []) [] cleanPointGeo _
      rfl rfl (by decide) rfl rfl
      (stepFeature_wf noAreaFn 0 [] (featWithProps []) cleanPointGeo rfl rfl
        (by decide))).2 rfl⟩

-- =============================================================================
-- C7: total area sums polygon areas only
-- =============================================================================

/-- Property access on a non-null value agrees with the pure read. -/
theorem propAccess_ok (f : Json) (k : String) (hne : f ≠ .null) :
    propAccess (some f) k = .ok (jsGet f k) := by
  cases f <;> simp [propAccess, jsGet] at hne ⊢

/-- What one feature contributes to the running `totalAreaHa`: its computed
area over 10000 when it is a `Feature` with a truthy geometry of type
`Polygon` and the area calculation succeeds, and nothing otherwise (point
features — whatever their declared `area_ha` — contribute nothing). -/
def polyContribution (areaFn : Json → Option ℚ) (f : Json) : ℚ :=
  if jsGet f "type" = some (.str "Feature") ∧ jsTruthy (jsGet f "geometry") = true ∧
      jsGetOpt (jsGet f "geometry") "type" = some (.str "Polygon") then
    match areaFn f with
    | some aM2 => aM2 / 10000
    | none => 0
  else 0

/-- Reading `.type` of a truthy value never throws and agrees with the pure
read. -/
theorem propAccess_truthy (v : Option Json) (k : String) (hv : jsTruthy v = true) :
    propAccess v k = .ok (jsGetOpt v k) := by
  cases v with
  | none => simp [jsTruthy] at hv
  | some j => cases j <;> simp_all [propAccess, jsGet, jsGetOpt, jsTruthy]

/-- A successful feature iteration contributes exactly `polyContribution` to
the total. -/
theorem stepFeature_dTotal (areaFn : Json → Option ℚ) (i : Nat) (seen : List Json)
    (f : Json) (out : StepOut)
    (h : stepFeature areaFn i seen f = .ok out) :
    out.dTotal = polyContribution areaFn f := by
  by_cases hnull : f = .null
  · subst hnull
    unfold stepFeature at h
    simp [propAccess, exceptBind_err] at h
  unfold stepFeature at h
  rw [propAccess_ok f "type" hnull, exceptBind_ok] at h
  split at h
  · rename_i hT
    cases h
    simp [polyContribution, hT]
  rename_i hT
  rw [propAccess_ok f "geometry" hnull, exceptBind_ok] at h
  split at h
  · rename_i hG
    cases h
    simp [polyContribution, hG]
  rename_i hG
  rw [not_not] at hT hG
  rw [propAccess_truthy _ "type" hG, exceptBind_ok] at h
  split at h
  · rename_i hGT2
    cases h
    simp only [polyContribution]
    rw [if_neg fun hcon => hGT2.2 hcon.2.2]
  rename_i hGT
  have hdich : jsGetOpt (jsGet f "geometry") "type" = some (.str "Point") ∨
      jsGetOpt (jsGet f "geometry") "type" = some (.str "Polygon") := by
    by_contra hc
    push_neg at hc
    exact hGT ⟨hc.1, hc.2⟩
  rcases hmp : getMinCoordinatePrecision (jsGet f "geometry") with e | m
  · rw [hmp, exceptBind_err] at h
    cases h
  rw [hmp, exceptBind_ok] at h
  simp only [propAccess_ok f "properties" hnull, optChain_eq, exceptBind_ok, exceptPure] at h
  rcases hdich with hx | hx
  · simp only [hx, eq_self_iff_true, if_true, reduceCtorEq, if_false] at h
    repeat' split at h
    all_goals cases h
    all_goals simp [polyContribution, hx]
  · simp only [hx, Option.some.injEq, Json.str.injEq, String.reduceEq, if_false,
      eq_self_iff_true, if_true, reduceCtorEq] at h
    rcases ha : areaFn f with _ | a <;> simp only [ha] at h <;>
      repeat' split at h
    all_goals cases h
    all_goals simp [polyContribution, hx, ha, hT, hG]

/-- A successful feature loop accumulates exactly the polygon contributions. -/
theorem validateFeatures_total (areaFn : Json → Option ℚ) :
    ∀ (fs : List Json) (i : Nat) (seen : List Json) (out : LoopOut),
      validateFeatures areaFn i seen fs = .ok out →
      out.total = (fs.map (polyContribution areaFn)).sum := by
  intro fs
  induction fs with
  | nil =>
      intro i seen out h
      cases h
      rfl
  | cons f rest ih =>
      intro i seen out h
      unfold validateFeatures at h
      rcases hs : stepFeature areaFn i seen f with e | s
      · rw [hs, exceptBind_err] at h
        cases h
      rw [hs, exceptBind_ok] at h
      rcases hr : validateFeatures areaFn (i + 1) s.seenOut rest with e | l
      · rw [hr, exceptBind_err] at h
        cases h
      rw [hr, exceptBind_ok] at h
      cases h
      simp only [List.map_cons, List.sum_cons]
      rw [stepFeature_dTotal areaFn i seen f s hs, ih (i + 1) s.seenOut l hr]

/-- Rounding zero. -/
theorem jsRound_zero : jsRound 0 = 0 := by
  unfold jsRound
  norm_num [Int.floor_eq_zero_iff, Set.mem_Ico]

/-- The feature list the validator iterates over: the `features` array of the
normalized collection (empty whenever normalization fails or the field is not
an array). -/
def normFeatures (input : Option Json) : List Json :=
  match normalizeToFeatureCollection input with
  | .ok fc =>
      match jsGet fc "features" with
      | some (.arr xs) => xs
      | _ => []
  | .error _ => []

/-- C7: in the ValidationReport, `total_area_ha` is the rounded-to-3-decimals
sum of the polygon contributions alone — a Point feature's declared `area_ha`
property never enters the total (compare `polyContribution`, which inspects
only the geometry type and the computed area). -/
theorem validateGeoJSON_total_area (areaFn : Json → Option ℚ) (input : Option Json)
    (r : GeoValidationResult) (h : validateGeoJSON areaFn input = .ok r) :
    r.total_area_ha =
      (jsRound (((normFeatures input).map (polyContribution areaFn)).sum * 1000) : ℚ) / 1000 := by
  unfold validateGeoJSON at h
  split at h
  · rename_i hbad
    cases h
    cases input with
    | none => simp [normFeatures, normalizeToFeatureCollection, jsRound_zero]
    | some j =>
        have hnorm : normalizeToFeatureCollection (some j) = .error .invalidInput := by
          have hbad2 : ¬ (jsTruthy (some j) = true ∧ jsTypeofObject j = true) := by
            simpa using hbad
          simp only [normalizeToFeatureCollection]
          rw [if_pos hbad2]
        simp [normFeatures, hnorm, jsRound_zero]
  · split at h
    · rename_i e heq
      cases h
      simp [normFeatures, heq, jsRound_zero]
    · rename_i fc heq
      dsimp only at h
      split at h
      · cases h
        rename_i hempty
        rcases hfs : jsGet fc "features" with _ | j2
        · simp [normFeatures, heq, hfs, jsRound_zero]
        cases j2 with
        | arr xs =>
            rcases hxs : xs with _ | ⟨x, rest⟩
            · simp [normFeatures, heq, hfs, hxs, jsRound_zero]
            · exfalso
              rw [hfs, hxs] at hempty
              simp [jsTruthy, jsLength] at hempty
        | null => simp [normFeatures, heq, hfs, jsRound_zero]
        | bool b => simp [normFeatures, heq, hfs, jsRound_zero]
        | num n => simp [normFeatures, heq, hfs, jsRound_zero]
        | str s2 => simp [normFeatures, heq, hfs, jsRound_zero]
        | obj kvs => simp [normFeatures, heq, hfs, jsRound_zero]
      · split at h
        · cases h
        · rename_i out hloop
          cases h
          have htot := validateFeatures_total areaFn _ 0 [] out hloop
          simp only [normFeatures, heq]
          rw [htot]

/-- An area oracle that reports 12345 square meters for any polygon. -/
def areaFn12345 : Json → Option ℚ := fun _ => some 12345

/-- A well-formed Polygon geometry with 6-decimal coordinates. -/
def polyGeoW : Json :=
  .obj [("type", .str "Polygon"),
        ("coordinates", .arr [.arr [
          .arr [.num ⟨3123456, 6⟩, .num ⟨7123456, 6⟩],
          .arr [.num ⟨3123457, 6⟩, .num ⟨7123457, 6⟩],
          .arr [.num ⟨3123458, 6⟩, .num ⟨7123456, 6⟩],
          .arr [.num ⟨3123456, 6⟩, .num ⟨7123456, 6⟩]]])]

/-- A FeatureCollection with a single polygon feature. -/
def polyFCW : Json :=
  .obj [("type", .str "FeatureCollection"),
        ("features", .arr [.obj [("type", .str "Feature"), ("geometry", polyGeoW),
          ("properties", .obj [])]])]

/-- The report the validator produces for `polyFCW` under `areaFn12345`
(12345 m² is 1.2345 ha; the total rounds to 1.235). -/
def reportW : GeoValidationResult :=
  match validateGeoJSON areaFn12345 (some polyFCW) with
  | .ok r => r
  | .error _ => ⟨false, [], [], [], 0, 0⟩

/-- Witness for C7 at the concrete polygon collection. -/
theorem validateGeoJSON_total_area_witness :
    validateGeoJSON areaFn12345 (some polyFCW) = .ok reportW ∧
    reportW.valid = true ∧
    reportW.errors = [] ∧
    reportW.total_area_ha =
      (jsRound (((normFeatures (some polyFCW)).map (polyContribution areaFn12345)).sum * 1000)
        : ℚ) / 1000 :=
  ⟨rfl, rfl, rfl,
   validateGeoJSON_total_area areaFn12345 (some polyFCW) reportW rfl⟩

-- =============================================================================
-- C9: duplicate plot_id detection
-- =============================================================================

/-- The raw `feature.properties?.plot_id` value of a feature. -/
def plotIdOf (f : Json) : Option Json :=
  optChainP (jsGet f "properties") "plot_id"

/-- The plot id the validator tracks: the `plot_id` value when truthy,
otherwise `none`. -/
def tPlotId (f : Json) : Option Json :=
  if jsTruthy (plotIdOf f) then plotIdOf f else none

/-- The duplicate-plot-id events of a feature list, starting at index `i`
with `seen` ids already recorded: a pair `(k, p)` for every feature whose
truthy plot id `p` was already seen, mirroring the validator's seen-set
protocol. -/
def dupSpec : List Json → Nat → List Json → List (Nat × Json)
  | _, _, [] => []
  | seen, i, f :: rest =>
      if jsTruthy (plotIdOf f) then
        match plotIdOf f with
        | some p =>
            if seen.contains p then (i, p) :: dupSpec seen (i + 1) rest
            else dupSpec (p :: seen) (i + 1) rest
        | none => dupSpec seen (i + 1) rest
      else dupSpec seen (i + 1) rest

/-- The indices of features with no truthy plot id, starting at index `i`. -/
def missSpec : Nat → List Json → List Nat
  | _, [] => []
  | i, f :: rest =>
      if jsTruthy (plotIdOf f) then missSpec (i + 1) rest
      else i :: missSpec (i + 1) rest

/-- Whether an error is the duplicate-plot-id message. -/
def isDupErr : VErr → Bool
  | .duplicatePlotId _ _ => true
  | _ => false

/-- Whether a warning is the missing-plot-id message. -/
def isMissPlotWarn : VWarn → Bool
  | .missingPlotId _ => true
  | _ => false

/-- A well-formed feature: an object of type `Feature` whose geometry is a
well-formed Point or Polygon. -/
def wfFeature (f : Json) : Bool :=
  match f with
  | .obj ff =>
      decide (jsLookup ff "type" = some (.str "Feature")) &&
        (match jsLookup ff "geometry" with
         | some g => wfGeometry g
         | none => false)
  | _ => false

/-- The seen-set transition of a feature iteration. -/
theorem stepSpec_seenOut (areaFn : Json → Option ℚ) (i : Nat) (seen : List Json)
    (f g : Json) (props : Option Json) :
    (stepSpec areaFn i seen f g props).seenOut =
      (if jsTruthy (optChainP props "plot_id") then
        match optChainP props "plot_id" with
        | some pid => if seen.contains pid then seen else pid :: seen
        | none => seen
      else seen) := by
  unfold stepSpec
  repeat' split
  all_goals (first | rfl | simp_all)

/-- The duplicate errors of a feature iteration. -/
theorem stepSpec_dupErrs (areaFn : Json → Option ℚ) (i : Nat) (seen : List Json)
    (f g : Json) (props : Option Json) :
    (stepSpec areaFn i seen f g props).errs.filter isDupErr =
      (if jsTruthy (optChainP props "plot_id") then
        match optChainP props "plot_id" with
        | some pid => if seen.contains pid then [VErr.duplicatePlotId i pid] else []
        | none => []
      else []) := by
  unfold stepSpec
  simp only [List.filter_append]
  repeat' split
  all_goals simp_all [isDupErr]

/-- The missing-plot-id warnings of a feature iteration. -/
theorem stepSpec_missWarns (areaFn : Json → Option ℚ) (i : Nat) (seen : List Json)
    (f g : Json) (props : Option Json) :
    (stepSpec areaFn i seen f g props).warns.filter isMissPlotWarn =
      (if jsTruthy (optChainP props "plot_id") then [] else [VWarn.missingPlotId i]) := by
  unfold stepSpec
  simp only [List.filter_append]
  repeat' split
  all_goals simp_all [isMissPlotWarn]

/-- On well-formed features the loop succeeds, its duplicate errors are
exactly the `dupSpec` events, and its missing-plot-id warnings are exactly
the `missSpec` indices. -/
theorem validateFeatures_plotIds (areaFn : Json → Option ℚ) :
    ∀ (fs : List Json) (i : Nat) (seen : List Json),
      fs.all wfFeature = true →
      ∃ out, validateFeatures areaFn i seen fs = .ok out ∧
        out.errors.filter isDupErr =
          (dupSpec seen i fs).map (fun kp => VErr.duplicatePlotId kp.1 kp.2) ∧
        out.warnings.filter isMissPlotWarn = (missSpec i fs).map VWarn.missingPlotId := by
  intro fs
  induction fs with
  | nil =>
      intro i seen _
      exact ⟨⟨[], [], [], 0, 0⟩, rfl, rfl, rfl⟩
  | cons f rest ih =>
      intro i seen hall
      simp only [List.all_cons, Bool.and_eq_true] at hall
      obtain ⟨ff, hf⟩ : ∃ ff, f = .obj ff := by
        cases f <;> simp [wfFeature] at hall ⊢
      subst hf
      have hall1 := hall.1
      have hrest := hall.2
      simp only [wfFeature, Bool.and_eq_true, decide_eq_true_eq] at hall1
      obtain ⟨htype, hgwf⟩ := hall1
      obtain ⟨g, hgeom, hwf⟩ : ∃ g, jsLookup ff "geometry" = some g ∧ wfGeometry g = true := by
        rcases hg : jsLookup ff "geometry" with _ | g
        · rw [hg] at hgwf
          simp at hgwf
        · rw [hg] at hgwf
          exact ⟨g, rfl, hgwf⟩
      have hstep := stepFeature_wf areaFn i seen ff g htype hgeom hwf
      have hpid : plotIdOf (.obj ff) = optChainP (jsLookup ff "properties") "plot_id" := rfl
      set S := stepSpec areaFn i seen (.obj ff) g (jsLookup ff "properties") with hS
      obtain ⟨out2, hout2, herr2, hwarn2⟩ := ih (i + 1) S.seenOut hrest
      refine ⟨⟨S.errs ++ out2.errors, S.warns ++ out2.warnings, S.results ++ out2.results,
              S.dTotal + out2.total, S.dCount + out2.polyReq⟩, ?_, ?_, ?_⟩
      · unfold validateFeatures
        rw [hstep, exceptBind_ok, hout2, exceptBind_ok]
        rfl
      · have hseen : S.seenOut =
            (if jsTruthy (plotIdOf (.obj ff)) then
              match plotIdOf (.obj ff) with
              | some pid => if seen.contains pid then seen else pid :: seen
              | none => seen
            else seen) := by
          rw [hS, stepSpec_seenOut, ← hpid]
        simp only [List.filter_append]
        rw [hS, stepSpec_dupErrs, ← hpid]
        unfold dupSpec
        rcases htr : jsTruthy (plotIdOf (.obj ff)) with _ | _
        · have hcond : ¬ (jsTruthy (plotIdOf (.obj ff)) = true) := by simp [htr]
          simp only [if_neg hcond] at hseen ⊢
          rw [hseen] at herr2
          simpa using herr2
        · simp only [if_pos htr] at hseen ⊢
          rcases hp : plotIdOf (.obj ff) with _ | p
          · simp only [hp] at hseen ⊢
            rw [hseen] at herr2
            simpa using herr2
          · simp only [hp] at hseen ⊢
            rcases hc : seen.contains p with _ | _
            · have hcond2 : ¬ (seen.contains p = true) := by rw [hc]; simp
              simp only [if_neg hcond2] at hseen ⊢
              rw [hseen] at herr2
              simpa using herr2
            · simp only [if_pos hc] at hseen ⊢
              rw [hseen] at herr2
              simp [herr2]
      · have hseen : S.seenOut =
            (if jsTruthy (plotIdOf (.obj ff)) then
              match plotIdOf (.obj ff) with
              | some pid => if seen.contains pid then seen else pid :: seen
              | none => seen
            else seen) := by
          rw [hS, stepSpec_seenOut, ← hpid]
        simp only [List.filter_append]
        rw [hS, stepSpec_missWarns, ← hpid]
        unfold missSpec
        rcases htr : jsTruthy (plotIdOf (.obj ff)) with _ | _ <;> simp [hwarn2]

/-- A truthy plot id is a `some`. -/
theorem tPlotId_eq_some_iff (f : Json) (q : Json) :
    tPlotId f = some q ↔ jsTruthy (plotIdOf f) = true ∧ plotIdOf f = some q := by
  unfold tPlotId
  by_cases htr : jsTruthy (plotIdOf f) = true
  · rw [if_pos htr]
    simp [htr]
  · rw [if_neg htr]
    simp [htr]

/-- Membership in `dupSpec`: position `k` reports id `q` exactly when the
feature at `k` has truthy id `q` and `q` was already in the initial seen set
or carried by an earlier feature. -/
theorem dupSpec_mem (fs : List Json) :
    ∀ (seen : List Json) (i k : Nat) (q : Json),
      ((k, q) ∈ dupSpec seen i fs ↔
        ∃ d, d < fs.length ∧ k = i + d ∧ tPlotId (fs.getD d .null) = some q ∧
          (seen.contains q = true ∨ ∃ l, l < d ∧ tPlotId (fs.getD l .null) = some q)) := by
  induction fs with
  | nil =>
      intro seen i k q
      simp [dupSpec]
  | cons f rest ih =>
      intro seen i k q
      unfold dupSpec
      by_cases htr : jsTruthy (plotIdOf f) = true
      · rw [if_pos htr]
        rcases hp : plotIdOf f with _ | p
        · rw [hp] at htr
          simp [jsTruthy] at htr
        have htf : tPlotId f = some p := (tPlotId_eq_some_iff f p).mpr ⟨htr, hp⟩
        dsimp only
        by_cases hc : seen.contains p = true
        · rw [if_pos hc]
          constructor
          · intro hmem
            rcases List.mem_cons.mp hmem with he | hm
            · have hk1 : k = i := congrArg Prod.fst he
              have hk2 : q = p := congrArg Prod.snd he
              refine ⟨0, by simp, by omega, ?_, Or.inl ?_⟩
              · simp [List.getD_cons_zero, htf, hk2]
              · rw [hk2]
                exact hc
            · rw [ih] at hm
              obtain ⟨d, hd, hk, htid, hor⟩ := hm
              refine ⟨d + 1, by simp; omega, by omega,
                by simpa [List.getD_cons_succ] using htid, ?_⟩
              rcases hor with hs | ⟨l, hl, htl⟩
              · exact Or.inl hs
              · exact Or.inr ⟨l + 1, by omega, by simpa [List.getD_cons_succ] using htl⟩
          · rintro ⟨d, hd, hk, htid, hor⟩
            cases d with
            | zero =>
                simp only [List.getD_cons_zero] at htid
                rw [htf] at htid
                obtain rfl := Option.some.inj htid
                exact List.mem_cons.mpr (Or.inl (by simp [hk]))
            | succ d =>
                refine List.mem_cons.mpr (Or.inr ?_)
                rw [ih]
                refine ⟨d, by simp at hd; omega, by omega,
                  by simpa [List.getD_cons_succ] using htid, ?_⟩
                rcases hor with hs | ⟨l, hl, htl⟩
                · exact Or.inl hs
                · cases l with
                  | zero =>
                      simp only [List.getD_cons_zero] at htl
                      rw [htf] at htl
                      obtain rfl := Option.some.inj htl
                      exact Or.inl hc
                  | succ l =>
                      exact Or.inr ⟨l, by omega, by simpa [List.getD_cons_succ] using htl⟩
        · rw [if_neg hc]
          rw [ih]
          have hmemcons : ∀ x : Json, ((p :: seen).contains x = true ↔
              x = p ∨ seen.contains x = true) := by
            intro x
            simp [List.contains_cons, Bool.or_eq_true, beq_iff_eq]
          constructor
          · rintro ⟨d, hd, hk, htid, hor⟩
            refine ⟨d + 1, by simp; omega, by omega,
              by simpa [List.getD_cons_succ] using htid, ?_⟩
            rcases hor with hs | ⟨l, hl, htl⟩
            · rcases (hmemcons q).mp hs with hq | hq
              · exact Or.inr ⟨0, by omega, by simp [List.getD_cons_zero, htf, hq]⟩
              · exact Or.inl hq
            · exact Or.inr ⟨l + 1, by omega, by simpa [List.getD_cons_succ] using htl⟩
          · rintro ⟨d, hd, hk, htid, hor⟩
            cases d with
            | zero =>
                simp only [List.getD_cons_zero] at htid
                rw [htf] at htid
                obtain rfl := Option.some.inj htid
                rcases hor with hs | ⟨l, hl, _⟩
                · exact absurd hs hc
                · omega
            | succ d =>
                refine ⟨d, by simp at hd; omega, by omega,
                  by simpa [List.getD_cons_succ] using htid, ?_⟩
                rcases hor with hs | ⟨l, hl, htl⟩
                · exact Or.inl ((hmemcons q).mpr (Or.inr hs))
                · cases l with
                  | zero =>
                      simp only [List.getD_cons_zero] at htl
                      rw [htf] at htl
                      obtain rfl := Option.some.inj htl
                      exact Or.inl ((hmemcons p).mpr (Or.inl rfl))
                  | succ l =>
                      exact Or.inr ⟨l, by omega, by simpa [List.getD_cons_succ] using htl⟩
      · rw [if_neg htr]
        have htfn : tPlotId f = none := by
          unfold tPlotId
          rw [if_neg htr]
        rw [ih]
        constructor
        · rintro ⟨d, hd, hk, htid, hor⟩
          refine ⟨d + 1, by simp; omega, by omega,
            by simpa [List.getD_cons_succ] using htid, ?_⟩
          rcases hor with hs | ⟨l, hl, htl⟩
          · exact Or.inl hs
          · exact Or.inr ⟨l + 1, by omega, by simpa [List.getD_cons_succ] using htl⟩
        · rintro ⟨d, hd, hk, htid, hor⟩
          cases d with
          | zero =>
              simp only [List.getD_cons_zero] at htid
              rw [htfn] at htid
              exact Option.noConfusion htid
          | succ d =>
              refine ⟨d, by simp at hd; omega, by omega,
                by simpa [List.getD_cons_succ] using htid, ?_⟩
              rcases hor with hs | ⟨l, hl, htl⟩
              · exact Or.inl hs
              · cases l with
                | zero =>
                    simp only [List.getD_cons_zero] at htl
                    rw [htfn] at htl
                    exact Option.noConfusion htl
                | succ l =>
                    exact Or.inr ⟨l, by omega, by simpa [List.getD_cons_succ] using htl⟩

/-- Every index reported by `dupSpec` is at least the starting index. -/
theorem dupSpec_index_ge (fs : List Json) :
    ∀ (seen : List Json) (i : Nat), ∀ kp ∈ dupSpec seen i fs, i ≤ kp.1 := by
  induction fs with
  | nil => intro seen i kp h; simp [dupSpec] at h
  | cons f rest ih =>
      intro seen i kp h
      unfold dupSpec at h
      by_cases htr : jsTruthy (plotIdOf f) = true
      · rw [if_pos htr] at h
        rcases hp : plotIdOf f with _ | p
        · rw [hp] at htr
          simp [jsTruthy] at htr
        rw [hp] at h
        dsimp only at h
        by_cases hc : seen.contains p = true
        · rw [if_pos hc] at h
          rcases List.mem_cons.mp h with he | hm
          · subst he
            exact le_refl _
          · exact le_trans (by omega) (ih seen (i + 1) kp hm)
        · rw [if_neg hc] at h
          exact le_trans (by omega) (ih (p :: seen) (i + 1) kp h)
      · rw [if_neg htr] at h
        exact le_trans (by omega) (ih seen (i + 1) kp h)

/-- The indices reported by `dupSpec` are strictly increasing. -/
theorem dupSpec_pairwise (fs : List Json) :
    ∀ (seen : List Json) (i : Nat),
      (dupSpec seen i fs).Pairwise (fun a b => a.1 < b.1) := by
  induction fs with
  | nil => intro seen i; simp [dupSpec]
  | cons f rest ih =>
      intro seen i
      unfold dupSpec
      by_cases htr : jsTruthy (plotIdOf f) = true
      · rw [if_pos htr]
        rcases hp : plotIdOf f with _ | p
        · rw [hp] at htr
          simp [jsTruthy] at htr
        dsimp only
        by_cases hc : seen.contains p = true
        · rw [if_pos hc]
          exact List.Pairwise.cons
            (fun kp hkp => lt_of_lt_of_le (by omega) (dupSpec_index_ge rest seen (i + 1) kp hkp))
            (ih seen (i + 1))
        · rw [if_neg hc]
          exact ih (p :: seen) (i + 1)
      · rw [if_neg htr]
        exact ih seen (i + 1)

/-- A pairwise-irreflexive list whose members all equal `a`, with `a` a
member, is the singleton `[a]`. -/
theorem pairwise_eq_singleton {α : Type} (l : List α) (a : α) (R : α → α → Prop)
    (hp : l.Pairwise R) (hirr : ¬ R a a) (hmem : a ∈ l) (hall : ∀ x ∈ l, x = a) :
    l = [a] := by
  cases l with
  | nil => simp at hmem
  | cons x xs =>
      have hx : x = a := hall x (List.mem_cons_self _ _)
      subst hx
      cases xs with
      | nil => rfl
      | cons y ys =>
          have hy : y = x := hall y (List.mem_cons.mpr (Or.inr (List.mem_cons_self _ _)))
          subst hy
          exact absurd ((List.pairwise_cons.mp hp).1 y (List.mem_cons_self _ _)) hirr

/-- Membership in `missSpec`: exactly the positions with no truthy plot id. -/
theorem missSpec_mem (fs : List Json) :
    ∀ (i k : Nat), k ∈ missSpec i fs ↔
      ∃ d, d < fs.length ∧ k = i + d ∧ jsTruthy (plotIdOf (fs.getD d .null)) = false := by
  induction fs with
  | nil => intro i k; simp [missSpec]
  | cons f rest ih =>
      intro i k
      unfold missSpec
      by_cases htr : jsTruthy (plotIdOf f) = true
      · rw [if_pos htr, ih]
        constructor
        · rintro ⟨d, hd, hk, hfalse⟩
          exact ⟨d + 1, by simp; omega, by omega, by simpa [List.getD_cons_succ] using hfalse⟩
        · rintro ⟨d, hd, hk, hfalse⟩
          cases d with
          | zero =>
              simp only [List.getD_cons_zero] at hfalse
              rw [htr] at hfalse
              cases hfalse
          | succ d =>
              exact ⟨d, by simp at hd; omega, by omega,
                by simpa [List.getD_cons_succ] using hfalse⟩
      · rw [if_neg htr]
        have hf : jsTruthy (plotIdOf f) = false := by simpa using htr
        constructor
        · intro hmem
          rcases List.mem_cons.mp hmem with he | hm
          · refine ⟨0, by simp, by omega, ?_⟩
            simpa [List.getD_cons_zero] using hf
          · obtain ⟨d, hd, hk, hfalse⟩ := (ih (i + 1) k).mp hm
            exact ⟨d + 1, by simp; omega, by omega, by simpa [List.getD_cons_succ] using hfalse⟩
        · rintro ⟨d, hd, hk, hfalse⟩
          cases d with
          | zero => exact List.mem_cons.mpr (Or.inl (by omega))
          | succ d =>
              refine List.mem_cons.mpr (Or.inr ?_)
              rw [ih]
              exact ⟨d, by simp at hd; omega, by omega,
                by simpa [List.getD_cons_succ] using hfalse⟩

/-- A FeatureCollection object wrapping a feature list. -/
def mkFC (fs : List Json) : Json :=
  .obj [("type", .str "FeatureCollection"), ("features", .arr fs)]

/-- C9: for a collection of well-formed features in which exactly two
features (at positions `i < j`) share the same truthy plot id `p` (and no
other pair of truthy plot ids repeats), validation emits exactly one
duplicate-plot-id error, citing the index of the later feature; a feature
with no (truthy) plot id receives the missing-plot-id warning and never a
duplicate error. -/
theorem duplicate_plot_id_rule (areaFn : Json → Option ℚ) (fs : List Json)
    (p : Json) (i j : Nat)
    (hwf : fs.all wfFeature = true) (hij : i < j) (hj : j < fs.length)
    (hpi : tPlotId (fs.getD i .null) = some p)
    (hpj : tPlotId (fs.getD j .null) = some p)
    (huniq : ∀ k l, k < l → l < fs.length →
      tPlotId (fs.getD k .null) ≠ none →
      tPlotId (fs.getD k .null) = tPlotId (fs.getD l .null) → k = i ∧ l = j) :
    ∃ r, validateGeoJSON areaFn (some (mkFC fs)) = .ok r ∧
      r.errors.filter isDupErr = [.duplicatePlotId j p] ∧
      ∀ k, k < fs.length → jsTruthy (plotIdOf (fs.getD k .null)) = false →
        VWarn.missingPlotId k ∈ r.warnings ∧ ∀ q, VErr.duplicatePlotId k q ∉ r.errors := by
  obtain ⟨out, hloop, herrs, hwarns⟩ := validateFeatures_plotIds areaFn fs 0 [] hwf
  have hfs_ne : fs.length ≠ 0 := by omega
  have hmem_iff : ∀ kq : Nat × Json, kq ∈ dupSpec [] 0 fs ↔ kq = (j, p) := by
    rintro ⟨k, q⟩
    rw [dupSpec_mem]
    constructor
    · rintro ⟨d, hd, hk, htid, hor⟩
      rcases hor with hs | ⟨l, hl, htl⟩
      · simp [List.contains] at hs
      · have hq : tPlotId (fs.getD l .null) = tPlotId (fs.getD d .null) := by
          rw [htl, htid]
        have hne : tPlotId (fs.getD l .null) ≠ none := by
          rw [htl]
          exact Option.noConfusion
        obtain ⟨hli, hdj⟩ := huniq l d hl hd hne hq
        have hq2 : q = p := by
          rw [hdj, hpj] at htid
          exact (Option.some.inj htid).symm
        have hk2 : k = j := by omega
        simp [hk2, hq2]
    · intro he
      injection he with h1 h2
      exact ⟨j, hj, by omega, by rw [h2]; exact hpj,
        Or.inr ⟨i, hij, by rw [h2]; exact hpi⟩⟩
  have hsingle : dupSpec [] 0 fs = [(j, p)] :=
    pairwise_eq_singleton _ (j, p) _ (dupSpec_pairwise fs [] 0) (by simp)
      ((hmem_iff (j, p)).mpr rfl) (fun x hx => (hmem_iff x).mp hx)
  have hfilter : out.errors.filter isDupErr = [.duplicatePlotId j p] := by
    rw [herrs, hsingle]
    rfl
  refine ⟨⟨out.errors.isEmpty, out.errors, out.warnings, out.results,
    (jsRound (out.total * 1000) : ℚ) / 1000, out.polyReq⟩, ?_, hfilter, ?_⟩
  · have hnorm : normalizeToFeatureCollection (some (mkFC fs)) = .ok (mkFC fs) := by
      simp [normalizeToFeatureCollection, mkFC, jsGet, jsLookup, jsTruthy, jsTypeofObject,
        isJsArray]
    unfold validateGeoJSON
    rw [if_neg (by simp [mkFC, jsTruthy, jsTypeofObject])]
    rw [hnorm]
    have hfeat : jsGet (mkFC fs) "features" = some (.arr fs) := by
      simp [mkFC, jsGet, jsLookup]
    simp only [hfeat]
    rw [if_neg (by simp [jsTruthy, jsLength, hfs_ne])]
    simp only [hloop]
  · intro k hk hkfalse
    constructor
    · have hmiss : k ∈ missSpec 0 fs := (missSpec_mem fs 0 k).mpr ⟨k, hk, by omega, hkfalse⟩
      have hmap : VWarn.missingPlotId k ∈ (missSpec 0 fs).map VWarn.missingPlotId :=
        List.mem_map_of_mem _ hmiss
      rw [← hwarns] at hmap
      exact List.mem_of_mem_filter hmap
    · intro q hq
      have hmemf : VErr.duplicatePlotId k q ∈ out.errors.filter isDupErr :=
        List.mem_filter.mpr ⟨hq, rfl⟩
      rw [hfilter] at hmemf
      have hkj : k = j ∧ q = p := by
        rcases List.mem_cons.mp hmemf with he | he
        · exact ⟨by injection he, by injection he⟩
        · simp at he
      have htruthyj : jsTruthy (plotIdOf (fs.getD j .null)) = true :=
        ((tPlotId_eq_some_iff _ p).mp hpj).1
      rw [hkj.1, htruthyj] at hkfalse
      cases hkfalse

/-- Three well-formed features: indices 0 and 2 share `plot_id: "P1"`, index 1
has no plot id. -/
def dupFs : List Json :=
  [.obj (featWithProps [("plot_id", .str "P1")]),
   .obj (featWithProps []),
   .obj (featWithProps [("plot_id", .str "P1")])]

/-- Witness for C9 on the concrete collection: exactly one duplicate error,
citing index 2. -/
theorem duplicate_plot_id_rule_witness :
    ∃ r, validateGeoJSON noAreaFn (some (mkFC dupFs)) = .ok r ∧
      r.errors.filter isDupErr = [.duplicatePlotId 2 (.str "P1")] ∧
      ∀ k, k < dupFs.length → jsTruthy (plotIdOf (dupFs.getD k .null)) = false →
        VWarn.missingPlotId k ∈ r.warnings ∧ ∀ q, VErr.duplicatePlotId k q ∉ r.errors :=
  duplicate_plot_id_rule noAreaFn dupFs (.str "P1") 0 2 (by decide) (by decide) (by decide)
    (by decide) (by decide)
    (by
      intro k l hkl hll hne heq
      have hl3 : l < 3 := hll
      clear hll
      interval_cases l
      all_goals interval_cases k
      all_goals first
        | exact ⟨rfl, rfl⟩
        | exact absurd heq (by decide))
